import Mathlib

/-!
Verification development for the Archlette Python AST parser
(`src/scripts/python-ast-parser.py`).

The Python source is shallowly embedded: text is `List Char`, every regular
expression is realised as an explicit character scanner with the same match
semantics, and every extractor is a Lean function mirroring the corresponding
Python function.  Python `dict`s are ordered association lists with
insertion-order iteration and in-place overwrite, matching CPython.
The embedding restricts `\s` and `\w` to their ASCII ranges.
-/

namespace Archlette

/-- Text, as Python `str`: a list of characters. -/
abbrev Str := List Char

/-- Python `\s` over ASCII: space, tab, newline, carriage return, form feed,
vertical tab. -/
def pySpace (c : Char) : Bool :=
  c == ' ' || c == '\t' || c == '\n' || c == '\r' || c == '\x0c' || c == '\x0b'

/-- Python `\w` over ASCII: letters, digits, underscore. -/
def pyWord (c : Char) : Bool :=
  c.isLower || c.isUpper || c.isDigit || c == '_'

/-- Python `str.strip()` over ASCII whitespace. -/
def stripChars (l : Str) : Str :=
  ((l.dropWhile pySpace).reverse.dropWhile pySpace).reverse

/-- Python `str.split` on a newline character: always at least one piece. -/
def splitNl : Str → List Str
  | [] => [[]]
  | c :: t =>
    if c = '\n' then [] :: splitNl t
    else
      match splitNl t with
      | [] => [[c]]
      | h :: r => (c :: h) :: r

/-- Python `sep.join(pieces)`. -/
def joinSep (sep : Str) : List Str → Str
  | [] => []
  | [l] => l
  | l :: rest => l ++ sep ++ joinSep sep rest

/-! ## Doc-comment style detection (`DocstringParser._is_*_style`)

Each `re.search` is realised as a scanner that tries every start position.
`\s*` / `\s+` / `\w+` runs are maximal `takeWhile`/`dropWhile` runs: every
alternative that follows a run starts with a character outside the run's
class, so the backtracking regex engine accepts exactly these maximal runs.
-/

/-- The header names of the `_is_google_style` regex (line 57).  Note that the
detection regex knows only these seven names, while the section splitter's
keyword list (lines 265-266) additionally has Arguments, Notes, Examples. -/
def googleDetectNames : List Str :=
  [("Args").data, ("Returns").data, ("Yields").data, ("Raises").data,
   ("Note").data, ("Example").data, ("Attributes").data]

/-- The regex tail `\s*\n`: some whitespace, then a newline.  Since a newline
is itself whitespace this holds exactly when the leading whitespace run
contains a newline. -/
def wsNl (l : Str) : Bool := (l.takeWhile pySpace).contains '\n'

/-- Match of `\s*(Name):\s*\n` at the position just after a newline. -/
def googleHeaderAt (l : Str) : Bool :=
  googleDetectNames.any (fun n =>
    (n ++ [':']).isPrefixOf (l.dropWhile pySpace) &&
    wsNl ((l.dropWhile pySpace).drop (n.length + 1)))

/-- `DocstringParser._is_google_style` (line 57): search for
`\n\s*(Args|Returns|Yields|Raises|Note|Example|Attributes):\s*\n`. -/
def googleScan : Str → Bool
  | [] => false
  | c :: t => (c == '\n' && googleHeaderAt t) || googleScan t

/-- The header names of the `_is_numpy_style` regex (line 61). -/
def numpyDetectNames : List Str :=
  [("Parameters").data, ("Returns").data, ("Yields").data, ("Raises").data,
   ("See Also").data, ("Notes").data, ("Examples").data]

/-- Match of `\s*(Name)\s*\n\s*-+\s*\n` at the position just after a
newline. -/
def numpyHeaderAt (l : Str) : Bool :=
  numpyDetectNames.any (fun n =>
    n.isPrefixOf (l.dropWhile pySpace) &&
    (let r := (l.dropWhile pySpace).drop n.length
     wsNl r &&
     (let r1 := r.dropWhile pySpace
      !(r1.takeWhile (· == '-')).isEmpty &&
      wsNl (r1.dropWhile (· == '-')))))

/-- `DocstringParser._is_numpy_style` (line 61). -/
def numpyScan : Str → Bool
  | [] => false
  | c :: t => (c == '\n' && numpyHeaderAt t) || numpyScan t

/-- The field keywords of the `_is_sphinx_style` regex (line 65), with the
optional `s` of `returns?` and `raises?` expanded. -/
def sphinxKeywords : List Str :=
  [("param").data, ("type").data, ("returns").data, ("return").data,
   ("rtype").data, ("raises").data, ("raise").data]

/-- The regex tail `(\s+\w+)?:` after a field keyword. -/
def sphinxOptArg (r : Str) : Bool :=
  r.head? == some ':' ||
  (let w := r.takeWhile pySpace
   let r1 := r.dropWhile pySpace
   let nm := r1.takeWhile pyWord
   !w.isEmpty && !nm.isEmpty && (r1.drop nm.length).head? == some ':')

/-- Match of `(param|type|returns?|rtype|raises?)(\s+\w+)?:` at the position
just after a colon. -/
def sphinxFieldAt (l : Str) : Bool :=
  sphinxKeywords.any (fun kw => kw.isPrefixOf l && sphinxOptArg (l.drop kw.length))

/-- `DocstringParser._is_sphinx_style` (line 65). -/
def sphinxScan : Str → Bool
  | [] => false
  | c :: t => (c == ':' && sphinxFieldAt t) || sphinxScan t

/-- The four documentation conventions. -/
inductive DocStyle where
  | google
  | numpy
  | sphinx
  | simple
deriving DecidableEq, Repr

/-- The style dispatch of `DocstringParser.parse` (lines 45-53): the four
checks in fixed priority order, first match wins. -/
def detectStyle (l : Str) : DocStyle :=
  if googleScan l then .google
  else if numpyScan l then .numpy
  else if sphinxScan l then .sphinx
  else .simple

/-- Declarative reading of the Google-style detector: the text contains,
somewhere after a newline and optional whitespace, one of the seven
recognised header names followed by a colon, optional whitespace and a
newline. -/
def GoogleDetectSpec (l : Str) : Prop :=
  ∃ pre w₁ n w₂ post,
    l = pre ++ '\n' :: (w₁ ++ (n ++ ':' :: (w₂ ++ '\n' :: post))) ∧
    n ∈ googleDetectNames ∧
    (∀ c ∈ w₁, pySpace c = true) ∧ (∀ c ∈ w₂, pySpace c = true)

/-! ## The canonical documentation record -/

/-- One entry of the `args` list of a parsed docstring.  The Python dict key
`type` is kept as the field name. -/
structure ArgDoc where
  name : Str
  type : Option Str
  description : Str
deriving DecidableEq, Repr

/-- The `returns` record.  In `_parse_sphinx` the dict starts empty and keys
are set one at a time; a missing key is modelled as `none`. -/
structure ReturnsDoc where
  type : Option Str
  description : Option Str
deriving DecidableEq, Repr

/-- One entry of the `raises` list. -/
structure RaisesDoc where
  type : Str
  description : Str
deriving DecidableEq, Repr

/-- The result dict of `DocstringParser.parse`. -/
structure DocModel where
  summary : Option Str
  description : Option Str
  args : List ArgDoc
  returns : Option ReturnsDoc
  raises : List RaisesDoc
  examples : Option Str
deriving DecidableEq, Repr

/-- The all-empty record returned for an absent or empty docstring. -/
def emptyDoc : DocModel := ⟨none, none, [], none, [], none⟩

/-! ## Python dicts as ordered association lists -/

/-- `d[k] = v`: overwrite in place, else append — CPython's insertion-order
semantics. -/
def odIns {α : Type} : List (Str × α) → Str → α → List (Str × α)
  | [], k, v => [(k, v)]
  | (k', v') :: t, k, v => if k' = k then (k, v) :: t else (k', v') :: odIns t k v

/-- `d.get(k)`. -/
def odGet {α : Type} (d : List (Str × α)) (k : Str) : Option α :=
  (d.find? (fun p => p.1 == k)).map (fun p => p.2)

/-- `k in d`. -/
def odMem {α : Type} (d : List (Str × α)) (k : Str) : Bool := (odGet d k).isSome

/-! ## Sphinx field parsing (`DocstringParser._parse_sphinx`, lines 124-225)

Each `re.match` on a stripped line becomes an explicit matcher.  The regex
tail `\s*(.+)` succeeds on a nonempty remainder; when the remainder is pure
whitespace the backtracking engine yields its final character, which never
happens on stripped lines but is kept for fidelity. -/

/-- The regex tail `\s*(.+)` applied to the part of a line after a colon. -/
def descTail (r : Str) : Option Str :=
  if r.isEmpty then none
  else
    let d := r.dropWhile pySpace
    if d.isEmpty then some (r.drop (r.length - 1)) else some d

/-- The regex tail `\s+(\w+):\s*(.+)` after a field keyword: whitespace, a
captured name, a colon, and a description. -/
def namedTail (r : Str) : Option (Str × Str) :=
  let w := r.takeWhile pySpace
  let r1 := r.dropWhile pySpace
  let nm := r1.takeWhile pyWord
  if w.isEmpty || nm.isEmpty then none
  else
    match r1.drop nm.length with
    | ':' :: rest => (descTail rest).map (fun d => (nm, d))
    | _ => none

/-- `re.match(r':param\s+(\w+):\s*(.+)', line)`. -/
def matchParam (l : Str) : Option (Str × Str) :=
  if ((":param").data).isPrefixOf l then namedTail (l.drop 6) else none

/-- `re.match(r':type\s+(\w+):\s*(.+)', line)`. -/
def matchTypeF (l : Str) : Option (Str × Str) :=
  if ((":type").data).isPrefixOf l then namedTail (l.drop 5) else none

/-- `re.match(r':raises?\s+(\w+):\s*(.+)', line)`: the engine first tries the
spelling with `s`; when `:raises` is a prefix the `s`-less alternative cannot
succeed, so the two prefix tests are exclusive. -/
def matchRaises (l : Str) : Option (Str × Str) :=
  if ((":raises").data).isPrefixOf l then namedTail (l.drop 7)
  else if ((":raise").data).isPrefixOf l then namedTail (l.drop 6)
  else none

/-- `re.match(r':returns?:\s*(.+)', line)`. -/
def matchReturnD (l : Str) : Option Str :=
  if ((":returns").data).isPrefixOf l then
    match l.drop 8 with
    | ':' :: rest => descTail rest
    | _ => none
  else if ((":return").data).isPrefixOf l then
    match l.drop 7 with
    | ':' :: rest => descTail rest
    | _ => none
  else none

/-- `re.match(r':rtype:\s*(.+)', line)`. -/
def matchRtype (l : Str) : Option Str :=
  if ((":rtype").data).isPrefixOf l then
    match l.drop 6 with
    | ':' :: rest => descTail rest
    | _ => none
  else none

/-- The summary/description scan of `_parse_sphinx` (lines 129-153): returns
(summary lines, description lines, remaining lines from the first line whose
stripped form starts with a colon). -/
def sphinxHead : List Str → Bool → (List Str × List Str × List Str)
  | [], _ => ([], [], [])
  | l :: rest, inSum =>
    let s := stripChars l
    if s.isEmpty then sphinxHead rest false
    else if s.head? == some ':' then ([], [], l :: rest)
    else
      let r := sphinxHead rest inSum
      if inSum then (s :: r.1, r.2.1, r.2.2) else (r.1, s :: r.2.1, r.2.2)

/-- The mutable state of the field-list loop of `_parse_sphinx`. -/
structure SphinxSt where
  args : List ArgDoc
  paramTypes : List (Str × Str)
  returns : Option ReturnsDoc
  raises : List RaisesDoc
deriving DecidableEq, Repr

/-- One iteration of the field-list loop (lines 173-223): the five patterns
tried in source order on the stripped line. -/
def sphinxStep (st : SphinxSt) (line : Str) : SphinxSt :=
  let l := stripChars line
  match matchParam l with
  | some pd =>
    { st with args := st.args ++ [⟨pd.1, odGet st.paramTypes pd.1, pd.2⟩] }
  | none =>
    match matchTypeF l with
    | some nt =>
      { st with
        paramTypes := odIns st.paramTypes nt.1 nt.2,
        args := st.args.map (fun a =>
          if a.name = nt.1 then { a with type := some nt.2 } else a) }
    | none =>
      match matchReturnD l with
      | some d =>
        let r := st.returns.getD ⟨none, none⟩
        { st with returns := some { r with description := some d } }
      | none =>
        match matchRtype l with
        | some ty =>
          let r := st.returns.getD ⟨none, none⟩
          { st with returns := some { r with type := some ty } }
        | none =>
          match matchRaises l with
          | some nd => { st with raises := st.raises ++ [⟨nd.1, nd.2⟩] }
          | none => st

/-- `_parse_sphinx` on the line list of a docstring. -/
def parseSphinxLines (lines : List Str) : DocModel :=
  let h := sphinxHead lines true
  let st := h.2.2.foldl sphinxStep ⟨[], [], none, []⟩
  { summary := if h.1.isEmpty then none else some (joinSep ([' ']) h.1)
    description := if h.2.1.isEmpty then none else some (joinSep ([' ']) h.2.1)
    args := st.args
    returns := st.returns
    raises := st.raises
    examples := none }

/-- `DocstringParser._parse_sphinx`. -/
def parseSphinx (ds : Str) : DocModel := parseSphinxLines (splitNl ds)

/-! ## Google/NumPy section splitting (lines 259-373) -/

/-- Python `str.rstrip(':')`: remove every trailing colon. -/
def rstripColon (l : Str) : Str := (l.reverse.dropWhile (· == ':')).reverse

/-- The `summary_end` computation (lines 277-281 and 299-303): the index of
the first blank line, or 0 when none (or when the first line is blank). -/
def firstBlankIdx (ls : List Str) : Nat :=
  match ls.findIdx? (fun l => (stripChars l).isEmpty) with
  | some i => i
  | none => 0

/-- Saving the accumulated section lines into the sections dict (the block
duplicated at lines 273-288 and 296-310, shared by both splitters). -/
def stashSection (sections : List (Str × Str)) (cur : Str) (curLines : List Str) :
    List (Str × Str) :=
  if curLines.isEmpty then sections
  else if cur = ("summary").data then
    let se := firstBlankIdx curLines
    if se = 0 then odIns sections (("summary").data) (stripChars (joinSep ([' ']) curLines))
    else
      odIns
        (odIns sections (("summary").data)
          (stripChars (joinSep ([' ']) (curLines.take se))))
        (("description").data) (stripChars (joinSep ([' ']) (curLines.drop se)))
  else odIns sections cur (stripChars (joinSep (['\n']) curLines))

/-- The section splitter's keyword list (lines 265-266) — ten names, three
more than the detection regex knows. -/
def googleKeywords : List Str :=
  [("Args").data, ("Arguments").data, ("Returns").data, ("Yields").data,
   ("Raises").data, ("Note").data, ("Notes").data, ("Example").data,
   ("Examples").data, ("Attributes").data]

/-- The loop of `_split_sections_google` (lines 268-294). -/
def splitGoogleLoop : List Str → Str → List Str → List (Str × Str) → List (Str × Str)
  | [], cur, curLines, sections => stashSection sections cur curLines
  | line :: rest, cur, curLines, sections =>
    let s := stripChars line
    if googleKeywords.contains (rstripColon s) && s.getLast? == some ':' then
      splitGoogleLoop rest (rstripColon s) [] (stashSection sections cur curLines)
    else splitGoogleLoop rest cur (curLines ++ [line]) sections

/-- `DocstringParser._split_sections_google`. -/
def splitSectionsGoogle (lines : List Str) : List (Str × Str) :=
  splitGoogleLoop lines (("summary").data) [] []

/-- The keyword list of `_split_sections_numpy` (lines 320-321). -/
def numpyKeywords : List Str :=
  [("Parameters").data, ("Returns").data, ("Yields").data, ("Raises").data,
   ("See Also").data, ("Notes").data, ("Examples").data, ("Attributes").data]

/-- `re.match(r'^-+$', next_line)` on a stripped line. -/
def isDashes (l : Str) : Bool := !l.isEmpty && l.all (· == '-')

/-- The loop of `_split_sections_numpy` (lines 323-355): a keyword line whose
next line is all dashes opens a section and both lines are consumed. -/
def splitNumpyLoop : List Str → Str → List Str → List (Str × Str) → List (Str × Str)
  | [], cur, curLines, sections => stashSection sections cur curLines
  | [line], cur, curLines, sections => stashSection sections cur (curLines ++ [line])
  | line :: next :: rest, cur, curLines, sections =>
    let s := stripChars line
    if numpyKeywords.contains s && isDashes (stripChars next) then
      splitNumpyLoop rest s [] (stashSection sections cur curLines)
    else splitNumpyLoop (next :: rest) cur (curLines ++ [line]) sections

/-- `DocstringParser._split_sections_numpy`. -/
def splitSectionsNumpy (lines : List Str) : List (Str × Str) :=
  splitNumpyLoop lines (("summary").data) [] []

/-! ## Google field parsing (lines 375-410, 452-472, 495-522) -/

/-- `re.match(r'(\w+)\s*(?:\(([^)]+)\))?\s*:\s*(.+)', stripped)`. -/
def matchArgGoogle (l : Str) : Option (Str × Option Str × Str) :=
  let nm := l.takeWhile pyWord
  if nm.isEmpty then none
  else
    match (l.drop nm.length).dropWhile pySpace with
    | '(' :: r1 =>
      let ty := r1.takeWhile (· != ')')
      if ty.isEmpty then none
      else
        match r1.drop ty.length with
        | ')' :: r2 =>
          match r2.dropWhile pySpace with
          | ':' :: r4 => (descTail r4).map (fun d => (nm, some ty, d))
          | _ => none
        | _ => none
    | ':' :: r4 => (descTail r4).map (fun d => (nm, none, d))
    | _ => none

/-- The loop of `_parse_args_google`: a line not indented by eight spaces may
open an entry; indented lines continue the current entry's description. -/
def argsGoogleLoop : List Str → List ArgDoc → Option ArgDoc → List ArgDoc
  | [], acc, cur => acc ++ cur.toList
  | line :: rest, acc, cur =>
    let s := stripChars line
    if s.isEmpty then argsGoogleLoop rest acc cur
    else if !(("        ").data.isPrefixOf line) then
      match matchArgGoogle s with
      | some e => argsGoogleLoop rest (acc ++ cur.toList) (some ⟨e.1, e.2.1, e.2.2⟩)
      | none => argsGoogleLoop rest acc cur
    else
      match cur with
      | some c =>
        argsGoogleLoop rest acc (some { c with description := c.description ++ ' ' :: s })
      | none => argsGoogleLoop rest acc cur

/-- `DocstringParser._parse_args_google`. -/
def parseArgsGoogle (t : Str) : List ArgDoc := argsGoogleLoop (splitNl t) [] none

/-- The regex tail `\s*:\s*(.+)` of `_parse_returns_google`. -/
def retTypeCont (r : Str) : Option Str :=
  match r.dropWhile pySpace with
  | ':' :: r2 => descTail r2
  | _ => none

/-- The lazy bracket group `\[.*?\]` of `_parse_returns_google`: candidates
are tried at each closing bracket in order, extending the lazy content when
the continuation after the bracket fails. -/
def bracketScan (accRev : Str) : Str → Option (Str × Str)
  | [] => none
  | c :: t =>
    if c = ']' then
      match retTypeCont t with
      | some d => some (accRev.reverse, d)
      | none => bracketScan (c :: accRev) t
    else bracketScan (c :: accRev) t

/-- `DocstringParser._parse_returns_google`:
`re.match(r'(\w+(?:\[.*?\])?)\s*:\s*(.+)', stripped, re.DOTALL)`, falling
back to a type-less record. -/
def parseReturnsGoogle (t : Str) : ReturnsDoc :=
  let s := stripChars t
  let nm := s.takeWhile pyWord
  if nm.isEmpty then ⟨none, some s⟩
  else
    match s.drop nm.length with
    | '[' :: r =>
      match bracketScan [] r with
      | some cd => ⟨some (nm ++ '[' :: (cd.1 ++ [']'])), some (stripChars cd.2)⟩
      | none => ⟨none, some s⟩
    | r =>
      match retTypeCont r with
      | some d => ⟨some nm, some (stripChars d)⟩
      | none => ⟨none, some s⟩

/-- `re.match(r'(\w+)\s*:\s*(.+)', stripped)` in `_parse_raises_google`. -/
def matchRaiseGoogle (l : Str) : Option (Str × Str) :=
  let nm := l.takeWhile pyWord
  if nm.isEmpty then none
  else
    match (l.drop nm.length).dropWhile pySpace with
    | ':' :: r => (descTail r).map (fun d => (nm, d))
    | _ => none

/-- The loop of `_parse_raises_google`. -/
def raisesGoogleLoop : List Str → List RaisesDoc → Option RaisesDoc → List RaisesDoc
  | [], acc, cur => acc ++ cur.toList
  | line :: rest, acc, cur =>
    let s := stripChars line
    if s.isEmpty then raisesGoogleLoop rest acc cur
    else if !(("        ").data.isPrefixOf line) then
      match matchRaiseGoogle s with
      | some e => raisesGoogleLoop rest (acc ++ cur.toList) (some ⟨e.1, e.2⟩)
      | none => raisesGoogleLoop rest acc cur
    else
      match cur with
      | some c =>
        raisesGoogleLoop rest acc (some { c with description := c.description ++ ' ' :: s })
      | none => raisesGoogleLoop rest acc cur

/-- `DocstringParser._parse_raises_google`. -/
def parseRaisesGoogle (t : Str) : List RaisesDoc := raisesGoogleLoop (splitNl t) [] none

/-- Python truthiness `x or y` on optional strings: `None` and the empty
string are falsy. -/
def pyOr (a b : Option Str) : Option Str :=
  match a with
  | some v => if v.isEmpty then b else some v
  | none => b

/-- `DocstringParser._parse_google` (lines 67-94).  When the `Args` section is
present but its saved text is empty and no `Arguments` section exists,
`sections.get('Args') or sections.get('Arguments')` is None and
`_parse_args_google(None)` raises AttributeError, which propagates to the
caller: modelled by the error case. -/
def parseGoogle (ds : Str) : Except Str DocModel :=
  let sections := splitSectionsGoogle (splitNl ds)
  let argsE : Except Str (List ArgDoc) :=
    if odMem sections (("Args").data) || odMem sections (("Arguments").data) then
      match pyOr (odGet sections (("Args").data)) (odGet sections (("Arguments").data)) with
      | some t => .ok (parseArgsGoogle t)
      | none => .error (("'NoneType' object has no attribute 'split'").data)
    else .ok []
  match argsE with
  | .error e => .error e
  | .ok args =>
    .ok { summary := odGet sections (("summary").data)
          description := odGet sections (("description").data)
          args := args
          returns := match odGet sections (("Returns").data) with
            | some t => some (parseReturnsGoogle t)
            | none => none
          raises := match odGet sections (("Raises").data) with
            | some t => parseRaisesGoogle t
            | none => []
          examples := pyOr (odGet sections (("Examples").data))
            (odGet sections (("Example").data)) }

/-! ## NumPy field parsing (lines 412-450, 474-493, 524-551) -/

/-- The loop of `_parse_args_numpy`: a non-four-space-indented line containing
a colon opens `name : type`; other lines extend the description. -/
def argsNumpyLoop : List Str → List ArgDoc → Option ArgDoc → List ArgDoc
  | [], acc, cur => acc ++ cur.toList
  | line :: rest, acc, cur =>
    let s := stripChars line
    if s.isEmpty then argsNumpyLoop rest acc cur
    else if s.contains ':' && !(("    ").data.isPrefixOf line) then
      let nm := stripChars (s.takeWhile (· != ':'))
      let ty := stripChars ((s.dropWhile (· != ':')).drop 1)
      argsNumpyLoop rest (acc ++ cur.toList) (some ⟨nm, some ty, []⟩)
    else
      match cur with
      | some c =>
        argsNumpyLoop rest acc
          (some { c with description :=
            if c.description.isEmpty then s else c.description ++ ' ' :: s })
      | none => argsNumpyLoop rest acc cur

/-- `DocstringParser._parse_args_numpy`. -/
def parseArgsNumpy (t : Str) : List ArgDoc := argsNumpyLoop (splitNl t) [] none

/-- `DocstringParser._parse_returns_numpy`: first line is the type, the
remaining non-blank stripped lines joined by spaces are the description. -/
def parseReturnsNumpy (t : Str) : ReturnsDoc :=
  match splitNl (stripChars t) with
  | [] => ⟨none, none⟩
  | l0 :: rest =>
    let rt := stripChars l0
    let ds := joinSep ([' ']) ((rest.map stripChars).filter (fun l => !l.isEmpty))
    ⟨if rt.isEmpty then none else some rt, if ds.isEmpty then none else some ds⟩

/-- The loop of `_parse_raises_numpy`. -/
def raisesNumpyLoop : List Str → List RaisesDoc → Option RaisesDoc → List RaisesDoc
  | [], acc, cur => acc ++ cur.toList
  | line :: rest, acc, cur =>
    let s := stripChars line
    if s.isEmpty then raisesNumpyLoop rest acc cur
    else if !(("    ").data.isPrefixOf line) then
      raisesNumpyLoop rest (acc ++ cur.toList) (some ⟨s, []⟩)
    else
      match cur with
      | some c =>
        raisesNumpyLoop rest acc
          (some { c with description :=
            if c.description.isEmpty then s else c.description ++ ' ' :: s })
      | none => raisesNumpyLoop rest acc cur

/-- `DocstringParser._parse_raises_numpy`. -/
def parseRaisesNumpy (t : Str) : List RaisesDoc := raisesNumpyLoop (splitNl t) [] none

/-- `DocstringParser._parse_numpy` (lines 96-122). -/
def parseNumpy (ds : Str) : DocModel :=
  let sections := splitSectionsNumpy (splitNl ds)
  { summary := odGet sections (("summary").data)
    description := odGet sections (("description").data)
    args := match odGet sections (("Parameters").data) with
      | some t => parseArgsNumpy t
      | none => []
    returns := match odGet sections (("Returns").data) with
      | some t => some (parseReturnsNumpy t)
      | none => none
    raises := match odGet sections (("Raises").data) with
      | some t => parseRaisesNumpy t
      | none => []
    examples := odGet sections (("Examples").data) }

/-! ## Simple fallback (lines 227-257) -/

/-- The loop of `_parse_simple` over stripped lines: skip blanks and
`@`-prefixed lines, first hit is the summary, later hits accumulate. -/
def parseSimpleLoop : List Str → Option Str → List Str → (Option Str × List Str)
  | [], su, ds => (su, ds)
  | l :: rest, su, ds =>
    if l.isEmpty then parseSimpleLoop rest su ds
    else if l.head? == some '@' then parseSimpleLoop rest su ds
    else
      match su with
      | none => parseSimpleLoop rest (some l) ds
      | some s => parseSimpleLoop rest (some s) (ds ++ [l])

/-- `DocstringParser._parse_simple`. -/
def parseSimple (ds : Str) : DocModel :=
  let r := parseSimpleLoop ((splitNl ds).map stripChars) none []
  { summary := r.1
    description := if r.2.isEmpty then none else some (joinSep ([' ']) r.2)
    args := []
    returns := none
    raises := []
    examples := none }

/-- `DocstringParser.parse` (lines 32-53): absent or empty docstring yields
the empty record, otherwise the style dispatch in priority order.  The one
failure path of the Google branch is surfaced as an `Except` error, mirroring
the exception that `parse_file` catches per file. -/
def docParse (d : Option Str) : Except Str DocModel :=
  match d with
  | none => .ok emptyDoc
  | some ds =>
    if ds.isEmpty then .ok emptyDoc
    else if googleScan ds then parseGoogle ds
    else if numpyScan ds then .ok (parseNumpy ds)
    else if sphinxScan ds then .ok (parseSphinx ds)
    else .ok (parseSimple ds)

/-! ## The Python abstract syntax tree

The statement and expression kinds the script distinguishes, plus a catch-all
expression constructor for every other kind (which the script only ever
`ast.unparse`s or rejects).  Only `BitOr` binary operations are distinguished
because `is_type_expression` tests exactly `BinOp` + `BitOr`; other binary
operations fall under `other` with the same `False`/unparse behaviour. -/

inductive PExpr where
  | name (id : Str)
  | constStr (val : Str)
  | constOther (reprText : Str)
  | subscript (value : PExpr) (slice : PExpr)
  | bitOr (left : PExpr) (right : PExpr)
  | attr (value : PExpr) (attrName : Str)
  | call (func : PExpr) (callArgs : List PExpr)
  | other (reprText : Str)

/-- One positional / vararg / kwarg parameter (`ast.arg`): name and optional
annotation (field shortened to `ann`). -/
structure PArg where
  arg : Str
  ann : Option PExpr

/-- `ast.arguments`, restricted to the fields the script reads: `args`,
`defaults`, `vararg`, `kwarg`. -/
structure PArgs where
  args : List PArg
  defaults : List PExpr
  vararg : Option PArg
  kwarg : Option PArg

inductive Stmt where
  | classDef (name : Str) (bases : List PExpr) (decoratorList : List PExpr)
      (lineno : Nat) (body : List Stmt)
  | functionDef (name : Str) (fnArgs : PArgs) (decoratorList : List PExpr)
      (lineno : Nat) (returns : Option PExpr) (body : List Stmt)
  | asyncFunctionDef (name : Str) (fnArgs : PArgs) (decoratorList : List PExpr)
      (lineno : Nat) (returns : Option PExpr) (body : List Stmt)
  | assign (targets : List PExpr) (value : PExpr) (lineno : Nat)
  | annAssign (target : PExpr) (ann : PExpr) (value : Option PExpr) (lineno : Nat)
  | importStmt (names : List (Str × Option Str))
  | importFrom (moduleName : Option Str) (names : List (Str × Option Str)) (level : Nat)
  | exprStmt (value : PExpr)
  | passStmt

/-- A module is its statement list; the module docstring is the leading
string-constant expression statement. -/
abbrev Module := List Stmt

/-! `ast.unparse`, for the expression kinds above (string constants are
rendered the way CPython reprs them, with single quotes). -/

mutual

def unparse : PExpr → Str
  | .name i => i
  | .constStr v => '\'' :: (v ++ ['\''])
  | .constOther r => r
  | .subscript v s => unparse v ++ '[' :: (unparse s ++ [']'])
  | .bitOr l r => unparse l ++ (" | ").data ++ unparse r
  | .attr v a => unparse v ++ '.' :: a
  | .call f as => unparse f ++ '(' :: (unparseList as ++ [')'])
  | .other r => r

def unparseList : List PExpr → Str
  | [] => []
  | [e] => unparse e
  | e :: rest => unparse e ++ (", ").data ++ unparseList rest

end

/-- `get_name` (lines 1047-1054). -/
def getName : PExpr → Str
  | .name i => i
  | e => unparse e

/-- `get_decorator_name` (lines 1057-1064): a call collapses to its callee's
name. -/
def getDecoratorName : PExpr → Str
  | .name i => i
  | .call f _ => getName f
  | e => unparse e

/-- `get_annotation` (lines 1067-1072): `ast.unparse`; its `except` branch is
unreachable for well-formed nodes. -/
def getAnnText (e : PExpr) : Str := unparse e

/-! ## `ast.get_docstring`: the leading string constant, cleaned with
`inspect.cleandoc` -/

/-- Python `str.expandtabs()` with tab stops every 8 columns; the column
resets at a newline or carriage return. -/
def expandTabsGo : Str → Nat → Str
  | [], _ => []
  | c :: t, col =>
    if c = '\t' then
      let k := 8 - col % 8
      List.replicate k ' ' ++ expandTabsGo t (col + k)
    else if c = '\n' || c = '\r' then c :: expandTabsGo t 0
    else c :: expandTabsGo t (col + 1)

/-- `inspect.cleandoc`: expand tabs, strip the first line's leading
whitespace, remove the minimal common indentation of the non-blank later
lines, and drop leading and trailing empty lines. -/
def cleandoc (doc : Str) : Str :=
  let lines := splitNl (expandTabsGo doc 0)
  let margin : Option Nat := lines.tail.foldl
    (fun m line =>
      let content := (line.dropWhile pySpace).length
      if content ≠ 0 then
        let ind := line.length - content
        match m with
        | none => some ind
        | some v => some (min v ind)
      else m) none
  let lines : List Str := match lines with
    | [] => []
    | l0 :: rest =>
      (l0.dropWhile pySpace) ::
        (match margin with
         | some mg => rest.map (fun l => l.drop mg)
         | none => rest)
  let lines := (lines.reverse.dropWhile (fun (l : Str) => l.isEmpty)).reverse
  let lines := lines.dropWhile (fun (l : Str) => l.isEmpty)
  joinSep (['\n']) lines

/-- `ast.get_docstring(node)`: the body's first statement must be an
expression statement holding a string constant. -/
def getDocstring (body : List Stmt) : Option Str :=
  match body with
  | .exprStmt (.constStr v) :: _ => some (cleandoc v)
  | _ => none

/-! ## `extract_parameters` (lines 835-875) -/

/-- One extracted parameter (dict keys `name`, `annotation` — shortened to
`ann` — and `default`). -/
structure ParamRec where
  name : Str
  ann : Option Str
  default : Option Str
deriving DecidableEq, Repr

/-- The positional-argument loop: `i` is the running `enumerate` index, a
parameter named `self` or `cls` is skipped, and a default exists when the
index reaches `len(args) - len(defaults)` (the list index is then always in
range, so `get?` never misses). -/
def extractParamsGo (total : Nat) (defaults : List PExpr) : Nat → List PArg → List ParamRec
  | _, [] => []
  | i, a :: rest =>
    if a.arg = ("self").data || a.arg = ("cls").data then
      extractParamsGo total defaults (i + 1) rest
    else
      let offset := total - defaults.length
      let dflt := if i ≥ offset then (defaults.get? (i - offset)).map unparse else none
      ⟨a.arg, (a.ann).map getAnnText, dflt⟩ :: extractParamsGo total defaults (i + 1) rest

/-- `extract_parameters`: positional parameters, then the `*` collector, then
the `**` collector. -/
def extractParameters (fa : PArgs) : List ParamRec :=
  extractParamsGo fa.args.length fa.defaults 0 fa.args ++
  (match fa.vararg with
   | some v => [⟨'*' :: v.arg, (v.ann).map getAnnText, none⟩]
   | none => []) ++
  (match fa.kwarg with
   | some k => [⟨'*' :: '*' :: k.arg, (k.ann).map getAnnText, none⟩]
   | none => [])

/-! ## `extract_properties` (lines 733-805) -/

/-- Python `str.replace(pat, '')` for a nonempty pattern: remove every
leftmost, non-overlapping occurrence.  The counter consumes the remaining
characters of a matched occurrence. -/
def removeAllGo (pat : Str) : Str → Nat → Str
  | [], _ => []
  | _ :: t, k + 1 => removeAllGo pat t k
  | c :: t, 0 =>
    if pat.isPrefixOf (c :: t) then removeAllGo pat t (pat.length - 1)
    else c :: removeAllGo pat t 0

/-- `s.replace(pat, '')` (the script only uses nonempty patterns). -/
def removeAll (pat l : Str) : Str := removeAllGo pat l 0

/-- Python `str.endswith`. -/
def pyEndsWith (suf l : Str) : Bool := suf.isSuffixOf l

/-- One entry of the `property_methods` dict built by the first pass of
`extract_properties` (the `name`/`type` keys are reconstructed later). -/
structure PropInfo where
  line : Nat
  docstring : Option Str
  returnAnn : Option Str
  hasGetter : Bool
  hasSetter : Bool
  hasDeleter : Bool
deriving DecidableEq, Repr

/-- `if prop_name in property_methods: property_methods[prop_name][...] = True`:
an in-place update that does nothing when the key is absent. -/
def odSetFlag (d : List (Str × PropInfo)) (k : Str) (f : PropInfo → PropInfo) :
    List (Str × PropInfo) :=
  d.map (fun p => if p.1 = k then (p.1, f p.2) else p)

/-- The first pass of `extract_properties` (lines 740-770): an `@property`
decorated method opens (or overwrites) an entry; a `.setter`/`.deleter`
decorator sets the flag of an existing entry with the decorator's base name.
Only plain `FunctionDef`s participate (line 742). -/
def propFirstPass : List Stmt → List (Str × PropInfo) → List (Str × PropInfo)
  | [], d => d
  | s :: rest, d =>
    match s with
    | .functionDef nm _ decs ln ret b =>
      let d1 := if decs.any (fun dec => getDecoratorName dec == ("property").data)
        then odIns d nm ⟨ln, getDocstring b, ret.map getAnnText, true, false, false⟩
        else d
      let d2 := decs.foldl (fun acc dec =>
        let dn := getDecoratorName dec
        let acc1 := if pyEndsWith ((".setter").data) dn then
            odSetFlag acc (removeAll ((".setter").data) dn)
              (fun p => { p with hasSetter := true })
          else acc
        if pyEndsWith ((".deleter").data) dn then
          odSetFlag acc1 (removeAll ((".deleter").data) dn)
            (fun p => { p with hasDeleter := true })
        else acc1) d1
      propFirstPass rest d2
    | _ => propFirstPass rest d

/-- One extracted property (dict keys `name`, `type`, `annotation` — here
`ann` — `default`, `line`, `docstring`, `isReadonly`, `hasGetter`,
`hasSetter`, `hasDeleter`). -/
structure PropRec where
  name : Str
  type : Str
  ann : Option Str
  default : Option Str
  line : Nat
  docstring : Option Str
  isReadonly : Bool
  hasGetter : Bool
  hasSetter : Bool
  hasDeleter : Bool
deriving DecidableEq, Repr

/-- `extract_properties`: the property entries in dict insertion order
(lines 772-785), then the annotated class-level variables not claimed by a
property entry (lines 787-803). -/
def extractProperties (body : List Stmt) : List PropRec :=
  let pm := propFirstPass body []
  let props : List PropRec := pm.map (fun e =>
    { name := e.1, type := ("property").data, ann := e.2.returnAnn, default := none,
      line := e.2.line, docstring := e.2.docstring,
      isReadonly := e.2.hasGetter && !e.2.hasSetter,
      hasGetter := e.2.hasGetter, hasSetter := e.2.hasSetter,
      hasDeleter := e.2.hasDeleter })
  let vars : List PropRec := body.filterMap (fun s =>
    match s with
    | .annAssign (.name tid) a v ln =>
      if odMem pm tid then none
      else some { name := tid, type := ("class_variable").data,
                  ann := some (getAnnText a), default := v.map unparse, line := ln,
                  docstring := none, isReadonly := false, hasGetter := false,
                  hasSetter := false, hasDeleter := false }
    | _ => none)
  props ++ vars

/-- A getter method `@property def x` with empty body (for the concrete
counterexample class). -/
def propGetter (x : Str) (ln : Nat) : Stmt :=
  .functionDef x ⟨[⟨("self").data, none⟩], [], none, none⟩
    [.name (("property").data)] ln none []

/-- A setter method `@x.setter def x`. -/
def propSetter (x : Str) (ln : Nat) : Stmt :=
  .functionDef x ⟨[⟨("self").data, none⟩, ⟨("value").data, none⟩], [], none, none⟩
    [.attr (.name x) (("setter").data)] ln none []

/-- A deleter method `@x.deleter def x`. -/
def propDeleter (x : Str) (ln : Nat) : Stmt :=
  .functionDef x ⟨[⟨("self").data, none⟩], [], none, none⟩
    [.attr (.name x) (("deleter").data)] ln none []

/-! ## `extract_methods` / `extract_functions` (lines 700-730, 808-832) -/

/-- Decidable equality for `Except` results. -/
instance exceptDecEq {ε α : Type} [DecidableEq ε] [DecidableEq α] :
    DecidableEq (Except ε α) := fun a b =>
  match a, b with
  | .ok x, .ok y =>
    match decEq x y with
    | isTrue h => isTrue (congrArg Except.ok h)
    | isFalse h => isFalse (fun hh => h (Except.ok.inj hh))
  | .error x, .error y =>
    match decEq x y with
    | isTrue h => isTrue (congrArg Except.error h)
    | isFalse h => isFalse (fun hh => h (Except.error.inj hh))
  | .ok _, .error _ => isFalse (fun hh => Except.noConfusion hh)
  | .error _, .ok _ => isFalse (fun hh => Except.noConfusion hh)

/-- One extracted method (dict of lines 716-728; `returnAnnotation` is
shortened to `returnAnn`). -/
structure MethodRec where
  name : Str
  isStatic : Bool
  isAsync : Bool
  isClassMethod : Bool
  isAbstract : Bool
  decorators : List Str
  line : Nat
  docstring : Option Str
  parsedDoc : DocModel
  parameters : List ParamRec
  returnAnn : Option Str
deriving DecidableEq, Repr

/-- `extract_methods`: the function-like members of a class body, in order.
A docstring-parsing failure propagates as the error case. -/
def extractMethods : List Stmt → Except Str (List MethodRec)
  | [] => .ok []
  | s :: rest =>
    match s with
    | .functionDef nm fa decs ln ret b =>
      (docParse (getDocstring b)).bind (fun pd =>
        (extractMethods rest).map (fun ms =>
          { name := nm,
            isStatic := decs.any (fun d => getDecoratorName d == ("staticmethod").data),
            isAsync := false,
            isClassMethod := decs.any (fun d => getDecoratorName d == ("classmethod").data),
            isAbstract := decs.any (fun d => getDecoratorName d == ("abstractmethod").data),
            decorators := decs.map getDecoratorName, line := ln,
            docstring := getDocstring b, parsedDoc := pd,
            parameters := extractParameters fa,
            returnAnn := ret.map getAnnText } :: ms))
    | .asyncFunctionDef nm fa decs ln ret b =>
      (docParse (getDocstring b)).bind (fun pd =>
        (extractMethods rest).map (fun ms =>
          { name := nm,
            isStatic := decs.any (fun d => getDecoratorName d == ("staticmethod").data),
            isAsync := true,
            isClassMethod := decs.any (fun d => getDecoratorName d == ("classmethod").data),
            isAbstract := decs.any (fun d => getDecoratorName d == ("abstractmethod").data),
            decorators := decs.map getDecoratorName, line := ln,
            docstring := getDocstring b, parsedDoc := pd,
            parameters := extractParameters fa,
            returnAnn := ret.map getAnnText } :: ms))
    | _ => extractMethods rest

/-- One extracted top-level function (dict of lines 821-830). -/
structure FunctionRec where
  name : Str
  isAsync : Bool
  decorators : List Str
  line : Nat
  docstring : Option Str
  parsedDoc : DocModel
  parameters : List ParamRec
  returnAnn : Option Str
deriving DecidableEq, Repr

/-- `extract_functions`: the function-like statements of the module body. -/
def extractFunctions : List Stmt → Except Str (List FunctionRec)
  | [] => .ok []
  | s :: rest =>
    match s with
    | .functionDef nm fa decs ln ret b =>
      (docParse (getDocstring b)).bind (fun pd =>
        (extractFunctions rest).map (fun fs =>
          { name := nm, isAsync := false, decorators := decs.map getDecoratorName,
            line := ln, docstring := getDocstring b, parsedDoc := pd,
            parameters := extractParameters fa,
            returnAnn := ret.map getAnnText } :: fs))
    | .asyncFunctionDef nm fa decs ln ret b =>
      (docParse (getDocstring b)).bind (fun pd =>
        (extractFunctions rest).map (fun fs =>
          { name := nm, isAsync := true, decorators := decs.map getDecoratorName,
            line := ln, docstring := getDocstring b, parsedDoc := pd,
            parameters := extractParameters fa,
            returnAnn := ret.map getAnnText } :: fs))
    | _ => extractFunctions rest

/-! ## `extract_classes` (lines 679-697) and `ast.walk` -/

mutual

def stmtWeight : Stmt → Nat
  | .classDef _ _ _ _ b => 1 + bodyWeight b
  | .functionDef _ _ _ _ _ b => 1 + bodyWeight b
  | .asyncFunctionDef _ _ _ _ _ b => 1 + bodyWeight b
  | _ => 1

def bodyWeight : List Stmt → Nat
  | [] => 0
  | s :: t => stmtWeight s + bodyWeight t

end

/-- The statement-valued children of a node: only definition bodies can hold
further statements (expressions cannot contain statements in Python). -/
def childStmts : Stmt → List Stmt
  | .classDef _ _ _ _ b => b
  | .functionDef _ _ _ _ _ b => b
  | .asyncFunctionDef _ _ _ _ _ b => b
  | _ => []

/-- `ast.walk`: breadth-first order over all nodes, starting from the
module's statements. -/
def walkBfs (q : List Stmt) : List Stmt :=
  match q with
  | [] => []
  | s :: rest => s :: walkBfs (rest ++ childStmts s)
termination_by bodyWeight q
decreasing_by
  have happ : ∀ l1 l2 : List Stmt, bodyWeight (l1 ++ l2) = bodyWeight l1 + bodyWeight l2 := by
    intro l1 l2
    induction l1 with
    | nil => simp [bodyWeight]
    | cons a t ih =>
      rw [List.cons_append]
      simp only [bodyWeight]
      rw [ih]
      omega
  have hchild : bodyWeight (childStmts s) < stmtWeight s := by
    cases s <;> simp [childStmts, stmtWeight, bodyWeight]
  simp only [bodyWeight, happ]
  omega

/-- The guard of line 686:
`isinstance(getattr(node, 'parent', None), ast.Module) or not hasattr(node, 'parent')`.
`ast.parse` never sets a `parent` attribute and this script does not add one,
so `getattr` always yields `None` (not a Module — first disjunct False) and
`hasattr` is always False (second disjunct True): the guard is always True and
nested classes pass it, contrary to the comment above it in the source. -/
def classParentGuard : Bool := false || !false

/-- One extracted class (dict of lines 687-695). -/
structure ClassRec where
  name : Str
  baseClasses : List Str
  decorators : List Str
  line : Nat
  docstring : Option Str
  methods : List MethodRec
  properties : List PropRec
deriving DecidableEq, Repr

/-- The loop of `extract_classes` over the walk order. -/
def extractClassesGo : List Stmt → Except Str (List ClassRec)
  | [] => .ok []
  | s :: rest =>
    match s with
    | .classDef nm bases decs ln body =>
      if classParentGuard then
        (extractMethods body).bind (fun ms =>
          (extractClassesGo rest).map (fun cs =>
            { name := nm, baseClasses := bases.map getName,
              decorators := decs.map getDecoratorName, line := ln,
              docstring := getDocstring body, methods := ms,
              properties := extractProperties body } :: cs))
      else extractClassesGo rest
    | _ => extractClassesGo rest

/-- `extract_classes`: every `ClassDef` encountered by `ast.walk`. -/
def extractClasses (tree : Module) : Except Str (List ClassRec) :=
  extractClassesGo (walkBfs tree)

/-! ## `extract_types` (lines 878-1019) -/

/-- One extracted type definition. -/
structure TypeRec where
  name : Str
  category : Str
  line : Nat
  definition : Option Str
  docstring : Option Str
deriving DecidableEq, Repr

/-- `is_type_expression` (lines 967-977): names, constants, subscripts,
`|`-unions, attributes.  Calls and every other expression kind (including
non-`BitOr` binary operations) are rejected. -/
def isTypeExpression : PExpr → Bool
  | .name _ => true
  | .constStr _ => true
  | .constOther _ => true
  | .subscript _ _ => true
  | .bitOr _ _ => true
  | .attr _ _ => true
  | .call _ _ => false
  | .other _ => false

/-- `extract_typeddict_fields` (lines 980-988). -/
def extractTypedDictFields (body : List Stmt) : Str :=
  let fields := body.filterMap (fun s =>
    match s with
    | .annAssign (.name fid) a _ _ => some (fid ++ (": ").data ++ getAnnText a)
    | _ => none)
  '{' :: (joinSep ((", ").data) fields ++ ['}'])

/-- One Protocol method signature (lines 996-1007): parameters exclude only
a parameter literally named `self`. -/
def protoSig (isAsync : Bool) (nm : Str) (fa : PArgs) (ret : Option PExpr) : Str :=
  let params := (fa.args.filter (fun a => !(a.arg == ("self").data))).map (fun a =>
    match a.ann with
    | some an => a.arg ++ (": ").data ++ getAnnText an
    | none => a.arg)
  (if isAsync then ("async ").data else []) ++ nm ++
    '(' :: (joinSep ((", ").data) params ++ [')']) ++
    (match ret with
     | some r => (" -> ").data ++ getAnnText r
     | none => [])

/-- `extract_protocol_methods` (lines 991-1008). -/
def extractProtocolMethods (body : List Stmt) : Str :=
  let sigs := body.filterMap (fun s =>
    match s with
    | .functionDef nm fa _ _ ret _ => some (protoSig false nm fa ret)
    | .asyncFunctionDef nm fa _ _ ret _ => some (protoSig true nm fa ret)
    | _ => none)
  '{' :: (joinSep ((", ").data) sigs ++ ['}'])

/-- `extract_enum_members` (lines 1011-1019). -/
def extractEnumMembers (body : List Stmt) : Str :=
  let ms := (body.map (fun s =>
    match s with
    | .assign ts _ _ => ts.filterMap (fun t =>
        match t with
        | PExpr.name i => some i
        | _ => none)
    | _ => [])).flatten
  '{' :: (joinSep ((", ").data) ms ++ ['}'])

/-- Python `sub in s`: substring containment. -/
def containsSub (pat : Str) : Str → Bool
  | [] => pat.isPrefixOf []
  | c :: t => pat.isPrefixOf (c :: t) || containsSub pat t

/-- `target_name[0].isupper()`. -/
def headUpper : Str → Bool
  | [] => false
  | c :: _ => c.isUpper

/-- One step of the `extract_types` if/elif chain (lines 890-962).  The final
`elif isinstance(node, ast.Assign)` arm — the NewType case of lines 951-962 —
is unreachable, because the second arm (lines 903-915) already captures every
`ast.Assign` node; the order below mirrors the source chain, so a call value
such as `NewType('UserId', str)` merely fails `is_type_expression` in the
second arm and produces nothing. -/
def typeOfStmt (s : Stmt) : Option TypeRec :=
  match s with
  | .annAssign (.name tid) a v ln =>
    match a with
    | .name i =>
      if i = ("TypeAlias").data then
        some ⟨tid, ("TypeAlias").data, ln, v.map unparse, none⟩
      else none
    | _ => none
  | .assign ts v ln =>
    match ts with
    | [PExpr.name tn] =>
      if headUpper tn && isTypeExpression v then
        some ⟨tn, ("TypeAlias").data, ln, some (unparse v), none⟩
      else none
    | _ => none
  | .classDef nm bases _ ln body =>
    let baseNames := bases.map getName
    if baseNames.contains (("TypedDict").data) then
      some ⟨nm, ("TypedDict").data, ln, some (extractTypedDictFields body),
        getDocstring body⟩
    else if baseNames.contains (("Protocol").data) ||
        baseNames.any (fun bn => containsSub (("Protocol").data) bn) then
      some ⟨nm, ("Protocol").data, ln, some (extractProtocolMethods body),
        getDocstring body⟩
    else if baseNames.contains (("Enum").data) ||
        baseNames.contains (("IntEnum").data) ||
        baseNames.contains (("StrEnum").data) then
      some ⟨nm, ("Enum").data, ln, some (extractEnumMembers body), getDocstring body⟩
    else none
  | _ => none

/-- `extract_types`: the chain applied to each top-level statement in
order. -/
def extractTypes (tree : Module) : List TypeRec := tree.filterMap typeOfStmt

/-- The nested-class input for claim C3: `class A:` containing `class B:`. -/
def mNested : Module :=
  [.classDef (("A").data) [] [] 1 [.classDef (("B").data) [] [] 2 [.passStmt]]]

/-- The NewType input for claim C4: `UserId = NewType('UserId', str)`. -/
def mNewType : Module :=
  [.assign [.name (("UserId").data)]
    (.call (.name (("NewType").data)) [.constStr (("UserId").data), .name (("str").data)])
    1]

/-! ## `extract_imports` (lines 1022-1044) -/

structure ImportRec where
  source : Str
  names : List Str
  isRelative : Bool
  level : Nat
deriving DecidableEq, Repr

/-- `extract_imports`: one record per alias of an `import`, one record per
`from ... import ...`. -/
def extractImports (tree : Module) : List ImportRec :=
  (tree.map (fun s =>
    match s with
    | .importStmt names =>
      names.map (fun al =>
        ({ source := al.1, names := [al.2.getD al.1], isRelative := false,
           level := 0 } : ImportRec))
    | .importFrom m names lvl =>
      [{ source := m.getD [], names := names.map (fun al => al.2.getD al.1),
         isRelative := decide (0 < lvl), level := lvl }]
    | _ => [])).flatten

/-! ## `extract_component` / `extract_actors` / `extract_relationships`
(lines 598-676)

The `re.finditer` scanners advance to the end of each match, as the engine
does; `\S+`, `\s+`, `\s*` runs are maximal as before.  The `$` of the
lookahead `(?=@|$)` can also stop one character before a final newline; the
resulting description differs only in trailing whitespace, which the
`.strip()` removes, and re-scanning a lone trailing newline matches nothing
— so stopping at the first `@` or at the end is observationally equal. -/

def notSpace (c : Char) : Bool := !pySpace c

structure ComponentRec where
  name : Str
  description : Option Str
deriving DecidableEq, Repr

structure ActorRec where
  name : Str
  type : Str
  direction : Str
  description : Option Str
deriving DecidableEq, Repr

structure RelRec where
  target : Str
  description : Option Str
deriving DecidableEq, Repr

/-- `re.search(tag + r'\s+(\S+)', docstring)`: first position where the
literal tag is followed by whitespace and a nonspace name. -/
def tagSearch (tag : Str) : Str → Option Str
  | [] => none
  | c :: t =>
    match (if tag.isPrefixOf (c :: t) then
        let r := (c :: t).drop tag.length
        let nm := (r.dropWhile pySpace).takeWhile notSpace
        if (r.takeWhile pySpace).isEmpty || nm.isEmpty then none else some nm
      else none) with
    | some nm => some nm
    | none => tagSearch tag t

/-- The description of `extract_component` (lines 611-612): the text before
the first `@` when one exists, else the whole docstring; stripped, empty
becoming None. -/
def mkComponent (nm d : Str) : ComponentRec :=
  let descRaw := if d.contains '@' then stripChars (d.takeWhile (· != '@'))
    else stripChars d
  ⟨nm, if descRaw.isEmpty then none else some descRaw⟩

/-- `extract_component`: `@module`, then `@component`, then `@namespace`. -/
def extractComponent (tree : Module) : Option ComponentRec :=
  match getDocstring tree with
  | none => none
  | some d =>
    match tagSearch (("@module").data) d with
    | some nm => some (mkComponent nm d)
    | none =>
      match tagSearch (("@component").data) d with
      | some nm => some (mkComponent nm d)
      | none =>
        match tagSearch (("@namespace").data) d with
        | some nm => some (mkComponent nm d)
        | none => none

/-- The optional direction group `(?:\{(in|out|both)\}\s*)?` with its
`or 'both'` default: when present, consume it and the trailing whitespace;
when absent, the description starts here. -/
def dirSplit (r : Str) : Str × Str :=
  match r with
  | '\x7b' :: 'i' :: 'n' :: '\x7d' :: rr => (("in").data, rr.dropWhile pySpace)
  | '\x7b' :: 'o' :: 'u' :: 't' :: '\x7d' :: rr => (("out").data, rr.dropWhile pySpace)
  | '\x7b' :: 'b' :: 'o' :: 't' :: 'h' :: '\x7d' :: rr => (("both").data, rr.dropWhile pySpace)
  | _ => (("both").data, r)

/-- The tail of an actor match after `\{(Person|System)\}`: skip whitespace,
take the optional direction, then the lazy description up to the next `@` (or
the end); the match ends where the description ends. -/
def actorFinish (nm ty r4 : Str) : ActorRec × Str :=
  let ds := dirSplit (r4.dropWhile pySpace)
  let desc := stripChars (ds.2.takeWhile (· != '@'))
  (⟨nm, ty, ds.1, if desc.isEmpty then none else some desc⟩,
   ds.2.dropWhile (· != '@'))

/-- Match of the actor pattern after the literal `@actor` (6 characters
already consumed): `\s+(\S+)\s+\{(Person|System)\}...`. -/
def actorParse (r0 : Str) : Option (ActorRec × Str) :=
  if (r0.takeWhile pySpace).isEmpty ||
      ((r0.dropWhile pySpace).takeWhile notSpace).isEmpty ||
      (((r0.dropWhile pySpace).drop
          ((r0.dropWhile pySpace).takeWhile notSpace).length).takeWhile pySpace).isEmpty then
    none
  else if (("\x7bPerson\x7d").data).isPrefixOf
      (((r0.dropWhile pySpace).drop
        ((r0.dropWhile pySpace).takeWhile notSpace).length).dropWhile pySpace) then
    some (actorFinish ((r0.dropWhile pySpace).takeWhile notSpace) (("Person").data)
      ((((r0.dropWhile pySpace).drop
        ((r0.dropWhile pySpace).takeWhile notSpace).length).dropWhile pySpace).drop 8))
  else if (("\x7bSystem\x7d").data).isPrefixOf
      (((r0.dropWhile pySpace).drop
        ((r0.dropWhile pySpace).takeWhile notSpace).length).dropWhile pySpace) then
    some (actorFinish ((r0.dropWhile pySpace).takeWhile notSpace) (("System").data)
      ((((r0.dropWhile pySpace).drop
        ((r0.dropWhile pySpace).takeWhile notSpace).length).dropWhile pySpace).drop 8))
  else none

/-- One attempted match of the `@actor` pattern at the current position. -/
def matchActorAt (l : Str) : Option (ActorRec × Str) :=
  if (("@actor").data).isPrefixOf l then actorParse (l.drop 6) else none

/-- `re.finditer` over the `@actor` pattern: try every position; on a match,
continue from the match end. -/
def extractActorsGo (l : Str) : List ActorRec :=
  match l with
  | [] => []
  | c :: t =>
    match h : matchActorAt (c :: t) with
    | some ar => ar.1 :: extractActorsGo ar.2
    | none => extractActorsGo t
termination_by l.length
decreasing_by
  · have hdw : ∀ (p : Char → Bool) (l : Str), (l.dropWhile p).length ≤ l.length :=
      fun p l => (List.dropWhile_suffix p).length_le
    have hfin : ∀ nm ty r4 : Str, (actorFinish nm ty r4).2.length ≤ r4.length := by
      intro nm ty r4
      unfold actorFinish dirSplit
      have h1 := hdw pySpace r4
      split
      all_goals
        refine le_trans (hdw _ _) ?_
        rename_i heq
        first
        | exact h1
        | · have hlen := congrArg List.length heq
            simp only [List.length_cons] at hlen
            have := hdw pySpace (by exact r4)
            calc (List.dropWhile pySpace _).length ≤ _ := hdw pySpace _
              _ ≤ r4.length := by omega
    have hparse : ∀ (r0 : Str) (p : ActorRec × Str), actorParse r0 = some p →
        p.2.length ≤ r0.length := by
      intro r0 p hp
      have hd1 := hdw pySpace
        ((List.dropWhile pySpace r0).drop
          ((List.dropWhile pySpace r0).takeWhile notSpace).length)
      have hd2 := hdw pySpace r0
      have hd3 : ((List.dropWhile pySpace r0).drop
          ((List.dropWhile pySpace r0).takeWhile notSpace).length).length ≤
          (List.dropWhile pySpace r0).length := by
        rw [List.length_drop]
        omega
      have hd4 : ∀ l : Str, (l.drop 8).length ≤ l.length := by
        intro l
        rw [List.length_drop]
        omega
      unfold actorParse at hp
      split at hp
      · exact absurd hp (by simp)
      · split at hp
        · rw [Option.some_inj] at hp
          rw [← hp]
          exact le_trans (hfin _ _ _) (le_trans (hd4 _) (by omega))
        · split at hp
          · rw [Option.some_inj] at hp
            rw [← hp]
            exact le_trans (hfin _ _ _) (le_trans (hd4 _) (by omega))
          · exact absurd hp (by simp)
    have hpre : (("@actor").data).isPrefixOf (c :: t) = true := by
      by_contra hnp
      rw [Bool.not_eq_true] at hnp
      rw [matchActorAt, hnp] at h
      simp at h
    obtain ⟨l2, hl2⟩ := List.isPrefixOf_iff_prefix.mp hpre
    have hdrop : (c :: t).drop 6 = l2 := by
      rw [← hl2]
      rw [show (6 : Nat) = (("@actor").data).length from rfl, List.drop_left]
    have hlen : (c :: t).length = 6 + l2.length := by
      rw [← hl2]
      simp
      omega
    rw [matchActorAt, hpre] at h
    simp only [if_true] at h
    rw [hdrop] at h
    have := hparse l2 ar h
    simp only [List.length_cons] at hlen ⊢
    omega
  · simp

/-- `extract_actors`: the finditer loop over the module docstring. -/
def extractActors (tree : Module) : List ActorRec :=
  match getDocstring tree with
  | none => []
  | some d => extractActorsGo d

/-- Match of the `@uses` pattern (line 665):
`@uses\s+(\S+)\s*(.*?)(?=@|$)` at the current position. -/
def matchUsesAt (l : Str) : Option (RelRec × Str) :=
  if (("@uses").data).isPrefixOf l then
    let r0 := l.drop 5
    let r1 := r0.dropWhile pySpace
    let tgt := r1.takeWhile notSpace
    if (r0.takeWhile pySpace).isEmpty || tgt.isEmpty then none
    else
      let r2 := (r1.drop tgt.length).dropWhile pySpace
      let desc := stripChars (r2.takeWhile (· != '@'))
      some (⟨tgt, if desc.isEmpty then none else some desc⟩,
        r2.dropWhile (· != '@'))
  else none

/-- `re.finditer` over the `@uses` pattern. -/
def extractRelsGo (l : Str) : List RelRec :=
  match l with
  | [] => []
  | c :: t =>
    match h : matchUsesAt (c :: t) with
    | some ur => ur.1 :: extractRelsGo ur.2
    | none => extractRelsGo t
termination_by l.length
decreasing_by
  · have hpre : (("@uses").data).isPrefixOf (c :: t) = true := by
      by_contra hnp
      rw [Bool.not_eq_true] at hnp
      rw [matchUsesAt, hnp] at h
      simp at h
    obtain ⟨l2, hl2⟩ := List.isPrefixOf_iff_prefix.mp hpre
    have hdrop : (c :: t).drop 5 = l2 := by
      rw [← hl2]
      rw [show (5 : Nat) = (("@uses").data).length from rfl, List.drop_left]
    have hlen : (c :: t).length = 5 + l2.length := by
      rw [← hl2]
      simp
      omega
    rw [matchUsesAt, hpre] at h
    simp only [if_true] at h
    rw [hdrop] at h
    split at h
    · exact absurd h (by simp)
    · rw [Option.some_inj] at h
      rw [← h]
      simp only []
      have hdw : ∀ (p : Char → Bool) (l : Str), (l.dropWhile p).length ≤ l.length :=
        fun p l => (List.dropWhile_suffix p).length_le
      have h1 := hdw (fun c => c != '@')
        ((((l2.dropWhile pySpace).drop
          ((l2.dropWhile pySpace).takeWhile notSpace).length)).dropWhile pySpace)
      have h2 := hdw pySpace
        ((l2.dropWhile pySpace).drop ((l2.dropWhile pySpace).takeWhile notSpace).length)
      have h3 : ((l2.dropWhile pySpace).drop
          ((l2.dropWhile pySpace).takeWhile notSpace).length).length ≤
          (l2.dropWhile pySpace).length := by
        rw [List.length_drop]
        omega
      have h4 := hdw pySpace l2
      simp only [List.length_cons] at hlen ⊢
      omega
  · simp

/-- `extract_relationships`. -/
def extractRelationships (tree : Module) : List RelRec :=
  match getDocstring tree with
  | none => []
  | some d => extractRelsGo d

/-! ## `parse_file` (lines 554-595) and the batch loop (lines 1075-1086)

Obtaining the syntax tree from raw text is external to the system (spec §1);
the acquisition outcome is therefore an input: a tree, a SyntaxError with
line and message, or any other failure with a message — the three cases of
the `try`/`except` ladder. -/

inductive Acquire where
  | tree (t : Module)
  | syntaxErr (lineno : Nat) (msg : Str)
  | failure (msg : Str)

structure FileRecord where
  filePath : Str
  component : Option ComponentRec
  actors : List ActorRec
  relationships : List RelRec
  classes : List ClassRec
  functions : List FunctionRec
  types : List TypeRec
  imports : List ImportRec
  parseError : Option Str
deriving DecidableEq, Repr

/-- Decimal rendering of a line number, as the f-string does. -/
def natStr (n : Nat) : Str := (Nat.repr n).data

/-- The degraded record of the two `except` arms: every entity list empty,
no component, only `parseError` set. -/
def errorRecord (p msg : Str) : FileRecord :=
  ⟨p, none, [], [], [], [], [], [], some msg⟩

/-- `parse_file`: on a tree, run every extractor (an extraction failure —
here only the docstring-parser error — degrades the file identically); on a
SyntaxError, the formatted message; on any other failure, its message. -/
def parseFile (p : Str) (acq : Acquire) : FileRecord :=
  match acq with
  | .tree t =>
    match extractClasses t, extractFunctions t with
    | .ok cs, .ok fs =>
      { filePath := p, component := extractComponent t, actors := extractActors t,
        relationships := extractRelationships t, classes := cs, functions := fs,
        types := extractTypes t, imports := extractImports t, parseError := none }
    | .error m, _ => errorRecord p m
    | .ok _, .error m => errorRecord p m
  | .syntaxErr ln msg =>
    errorRecord p ((("Syntax error at line ").data) ++ natStr ln ++ (": ").data ++ msg)
  | .failure msg => errorRecord p msg

/-- The batch of `main` (lines 1081-1084): one record per input path, in
input order. -/
def runBatch (paths : List Str) (acquire : Str → Acquire) : List FileRecord :=
  paths.map (fun p => parseFile p (acquire p))

/-- A line's first character is not whitespace (Boolean, for decidable
hypotheses). -/
def headNotSpace (l : Str) : Bool :=
  match l.head? with
  | some c => !pySpace c
  | none => true

/-- A line's last character is not whitespace. -/
def lastNotSpace (l : Str) : Bool :=
  match l.getLast? with
  | some c => !pySpace c
  | none => true

end Archlette

namespace Archlette

/-! ## Theorems: text helpers and the style classifier -/

theorem takeWhile_sat_append {p : Char → Bool} :
    ∀ xs ys : Str, (∀ c ∈ xs, p c = true) →
      (xs ++ ys).takeWhile p = xs ++ ys.takeWhile p := by
  intro xs ys h
  induction xs with
  | nil => simp
  | cons c t ih =>
    have hc : p c = true := h c (by simp)
    simp only [List.cons_append, List.takeWhile_cons, hc, if_true]
    rw [ih (fun d hd => h d (by simp [hd]))]

theorem dropWhile_sat_append {p : Char → Bool} :
    ∀ xs ys : Str, (∀ c ∈ xs, p c = true) →
      (xs ++ ys).dropWhile p = ys.dropWhile p := by
  intro xs ys h
  induction xs with
  | nil => simp
  | cons c t ih =>
    have hc : p c = true := h c (by simp)
    simp only [List.cons_append, List.dropWhile_cons, hc, if_true]
    exact ih (fun d hd => h d (by simp [hd]))

theorem isPrefixOf_self_append : ∀ a b : Str, a.isPrefixOf (a ++ b) = true := by
  intro a b
  induction a with
  | nil => simp [List.isPrefixOf]
  | cons c t ih => simp [List.isPrefixOf, ih]

theorem googleScan_mono (l₁ l₂ : Str) (h : googleScan l₂ = true) :
    googleScan (l₁ ++ l₂) = true := by
  induction l₁ with
  | nil => simpa
  | cons c t ih => simp [googleScan, ih]

theorem googleName_not_space {n : Str} (hn : n ∈ googleDetectNames) :
    ∃ c t, n = c :: t ∧ pySpace c = false := by
  simp only [googleDetectNames, List.mem_cons, List.not_mem_nil, or_false] at hn
  rcases hn with rfl | rfl | rfl | rfl | rfl | rfl | rfl <;>
    exact ⟨_, _, rfl, by decide⟩

theorem googleScan_of_pattern (pre w₁ n w₂ post : Str)
    (hn : n ∈ googleDetectNames)
    (h₁ : ∀ c ∈ w₁, pySpace c = true) (h₂ : ∀ c ∈ w₂, pySpace c = true) :
    googleScan (pre ++ '\n' :: (w₁ ++ (n ++ ':' :: (w₂ ++ '\n' :: post)))) = true := by
  apply googleScan_mono
  obtain ⟨c0, t0, hn0, hc0⟩ := googleName_not_space hn
  have hdrop : (w₁ ++ (n ++ ':' :: (w₂ ++ '\n' :: post))).dropWhile pySpace =
      n ++ ':' :: (w₂ ++ '\n' :: post) := by
    rw [dropWhile_sat_append _ _ h₁, hn0]
    simp [List.dropWhile_cons, hc0]
  have hpref : (n ++ [':']).isPrefixOf (n ++ ':' :: (w₂ ++ '\n' :: post)) = true := by
    have he : n ++ ':' :: (w₂ ++ '\n' :: post) = (n ++ [':']) ++ (w₂ ++ '\n' :: post) := by
      simp
    rw [he]
    exact isPrefixOf_self_append _ _
  have hdropn : (n ++ ':' :: (w₂ ++ '\n' :: post)).drop (n.length + 1) =
      w₂ ++ '\n' :: post := by
    have he : n ++ ':' :: (w₂ ++ '\n' :: post) = (n ++ [':']) ++ (w₂ ++ '\n' :: post) := by
      simp
    rw [he]
    have hlen : (n ++ [':']).length = n.length + 1 := by simp
    rw [← hlen, List.drop_left]
  have hws : wsNl (w₂ ++ '\n' :: post) = true := by
    unfold wsNl
    rw [takeWhile_sat_append _ _ h₂]
    simp [List.takeWhile_cons, pySpace]
  have hhdr : googleHeaderAt (w₁ ++ (n ++ ':' :: (w₂ ++ '\n' :: post))) = true := by
    unfold googleHeaderAt
    rw [List.any_eq_true]
    refine ⟨n, hn, ?_⟩
    rw [hdrop, hpref, hdropn, hws]
    rfl
  simp only [googleScan]
  rw [hhdr]
  simp

theorem googleScan_sound : ∀ l : Str, googleScan l = true → GoogleDetectSpec l := by
  intro l
  induction l with
  | nil => intro h; simp [googleScan] at h
  | cons c t ih =>
    intro h
    simp only [googleScan, Bool.or_eq_true, Bool.and_eq_true, beq_iff_eq] at h
    rcases h with ⟨rfl, hhdr⟩ | h
    · unfold googleHeaderAt at hhdr
      rw [List.any_eq_true] at hhdr
      obtain ⟨n, hn, hand⟩ := hhdr
      rw [Bool.and_eq_true] at hand
      obtain ⟨hpref, hws⟩ := hand
      obtain ⟨rest, hrest⟩ := (List.isPrefixOf_iff_prefix.mp hpref)
      have hdropid : (t.dropWhile pySpace).drop (n.length + 1) = rest := by
        have he : t.dropWhile pySpace = (n ++ [':']) ++ rest := by rw [← hrest]
        rw [he]
        have hlen : (n ++ [':']).length = n.length + 1 := by simp
        rw [← hlen, List.drop_left]
      rw [hdropid] at hws
      unfold wsNl at hws
      rw [List.contains_eq_any_beq, List.any_eq_true] at hws
      obtain ⟨c2, hc2mem, hc2⟩ := hws
      rw [beq_iff_eq] at hc2
      subst hc2
      obtain ⟨s2, t2, hsplit⟩ := List.append_of_mem hc2mem
      have hsat : ∀ c ∈ s2, pySpace c = true := by
        intro c hc
        have hmem : c ∈ rest.takeWhile pySpace := by rw [hsplit]; simp [hc]
        exact List.mem_takeWhile_imp hmem
      obtain ⟨dwr, hdwr⟩ : ∃ z, rest.dropWhile pySpace = z := ⟨_, rfl⟩
      have hrest2 : rest = s2 ++ '\n' :: (t2 ++ dwr) := by
        conv_lhs => rw [← List.takeWhile_append_dropWhile (p := pySpace) (l := rest)]
        rw [hsplit, hdwr]
        simp
      have hdw : t.dropWhile pySpace = n ++ ':' :: (s2 ++ '\n' :: (t2 ++ dwr)) := by
        rw [← hrest, hrest2]
        simp
      have ht : t = t.takeWhile pySpace ++ (n ++ ':' :: (s2 ++ '\n' :: (t2 ++ dwr))) := by
        conv_lhs => rw [← List.takeWhile_append_dropWhile (p := pySpace) (l := t)]
        rw [hdw]
      refine ⟨[], t.takeWhile pySpace, n, s2, t2 ++ dwr, ?_, hn, ?_, hsat⟩
      · rw [List.nil_append]
        exact congrArg (fun x => '\n' :: x) ht
      · intro c hc
        exact List.mem_takeWhile_imp hc
    · obtain ⟨pre, w₁, n, w₂, post, heq, hn, h₁, h₂⟩ := ih h
      exact ⟨c :: pre, w₁, n, w₂, post, by rw [heq]; rfl, hn, h₁, h₂⟩

theorem detectStyle_google_iff (l : Str) :
    detectStyle l = DocStyle.google ↔ googleScan l = true := by
  constructor
  · intro h
    by_contra hg
    rw [Bool.not_eq_true] at hg
    unfold detectStyle at h
    rw [hg] at h
    simp only [Bool.false_eq_true, if_false] at h
    rcases hnum : numpyScan l with _ | _ <;> rw [hnum] at h <;>
      rcases hsp : sphinxScan l with _ | _ <;> simp_all
  · intro h
    simp [detectStyle, h]

/-- Claim C1: the doc-comment style classifier checks Google, NumPy, Sphinx,
Simple in that fixed priority order with first match wins; in particular any
comment containing a Google `Args:` section header (here: a newline, `Args:`,
a newline) together with a Sphinx `:param x:` field marker is classified
Google and never Sphinx. -/
theorem claim_c1_classifier_priority (pre mid post : Str) :
    detectStyle (pre ++ ("\nArgs:\n").data ++ mid ++ (":param x:").data ++ post) =
      DocStyle.google ∧
    detectStyle (pre ++ ("\nArgs:\n").data ++ mid ++ (":param x:").data ++ post) ≠
      DocStyle.sphinx := by
  have e1 : ("\nArgs:\n").data =
      '\n' :: ('A' :: ('r' :: ('g' :: ('s' :: (':' :: ('\n' :: ([] : Str))))))) := rfl
  have e2 : ("Args").data = 'A' :: ('r' :: ('g' :: ('s' :: ([] : Str)))) := rfl
  have h := googleScan_of_pattern pre [] (("Args").data) []
    (mid ++ (":param x:").data ++ post)
    (by simp [googleDetectNames]) (by simp) (by simp)
  rw [e2] at h
  have hscan : googleScan
      (pre ++ ("\nArgs:\n").data ++ mid ++ (":param x:").data ++ post) = true := by
    rw [e1]
    simpa [List.append_assoc] using h
  have hg := (detectStyle_google_iff _).mpr hscan
  exact ⟨hg, by rw [hg]; decide⟩

/-- Claim C5 (counterexample): a comment whose only section header is
`Arguments:` is not classified Google — the detection regex knows only
Args, Returns, Yields, Raises, Note, Example, Attributes. -/
theorem claim_c5_counterexample :
    detectStyle (("Summary.\n\nArguments:\n    x: int value\n").data) ≠
      DocStyle.google := by
  decide

/-- Claim C5 (amended): the classifier returns Google exactly when the text
contains, after a newline and optional whitespace, a header name from the
seven-name set Args, Returns, Yields, Raises, Note, Example, Attributes
immediately followed by a colon, optional whitespace and a newline
(Arguments, Notes and Examples are not detected, and a header on the very
first line is not detected). -/
theorem claim_c5_amended (l : Str) :
    detectStyle l = DocStyle.google ↔ GoogleDetectSpec l := by
  rw [detectStyle_google_iff]
  constructor
  · exact googleScan_sound l
  · rintro ⟨pre, w₁, n, w₂, post, rfl, hn, h₁, h₂⟩
    exact googleScan_of_pattern pre w₁ n w₂ post hn h₁ h₂

/-! ## Theorems: `extract_parameters` -/

theorem cons_ne_of_head {a b : Char} {x y : Str} (h : a ≠ b) : (a :: x) ≠ (b :: y) := by
  intro he
  injection he with h1 _
  exact h h1

theorem extractParamsGo_names (total : Nat) (ds : List PExpr) :
    ∀ (l : List PArg) (i : Nat),
      (extractParamsGo total ds i l).map ParamRec.name =
        (l.filter (fun a =>
          !(a.arg == ("self").data || a.arg == ("cls").data))).map PArg.arg := by
  intro l
  induction l with
  | nil => intro i; rfl
  | cons a t ih =>
    intro i
    by_cases hc : a.arg = ("self").data ∨ a.arg = ("cls").data
    · have hb : (a.arg == ("self").data || a.arg == ("cls").data) = true := by
        rcases hc with h | h <;> simp [h]
      rcases hc with h | h <;>
        simp [extractParamsGo, h, List.filter_cons, hb, ih]
    · push_neg at hc
      have hb : (a.arg == ("self").data || a.arg == ("cls").data) = false := by
        simp [hc.1, hc.2]
      simp [extractParamsGo, hc.1, hc.2, List.filter_cons, hb, ih]

theorem extractParameters_names (fa : PArgs) :
    (extractParameters fa).map ParamRec.name =
      (fa.args.filter (fun a =>
        !(a.arg == ("self").data || a.arg == ("cls").data))).map PArg.arg ++
      (fa.vararg.map (fun v => '*' :: v.arg)).toList ++
      (fa.kwarg.map (fun k => '*' :: '*' :: k.arg)).toList := by
  unfold extractParameters
  rw [List.map_append, List.map_append, extractParamsGo_names]
  congr 1
  · congr 1
    cases fa.vararg <;> rfl
  · cases fa.kwarg <;> rfl

/-- Claim C10: any declared positional parameter literally named `self` or
`cls` is omitted from the extracted list regardless of its position — the
extracted names are exactly the names of the positional parameters not named
`self`/`cls`, followed by the starred collectors, and no extracted parameter
is ever named `self` or `cls`. -/
theorem claim_c10_self_cls_omitted (fa : PArgs) :
    ((extractParameters fa).map ParamRec.name =
      (fa.args.filter (fun a =>
        !(a.arg == ("self").data || a.arg == ("cls").data))).map PArg.arg ++
      (fa.vararg.map (fun v => '*' :: v.arg)).toList ++
      (fa.kwarg.map (fun k => '*' :: '*' :: k.arg)).toList) ∧
    (∀ p ∈ extractParameters fa,
      p.name ≠ ("self").data ∧ p.name ≠ ("cls").data) := by
  have hmain := extractParameters_names fa
  refine ⟨hmain, ?_⟩
  intro p hp
  have hname : p.name ∈ (extractParameters fa).map ParamRec.name :=
    List.mem_map_of_mem _ hp
  rw [hmain] at hname
  rw [List.mem_append, List.mem_append] at hname
  rcases hname with (hname | hname) | hname
  · rw [List.mem_map] at hname
    obtain ⟨a, ha, heq⟩ := hname
    rw [← heq]
    rw [List.mem_filter] at ha
    have hcond := ha.2
    simp only [Bool.not_eq_true', Bool.or_eq_false_iff, beq_eq_false_iff_ne] at hcond
    exact hcond
  · cases hv : fa.vararg with
    | none => rw [hv] at hname; simp [Option.map, Option.toList] at hname
    | some v =>
      rw [hv] at hname
      simp only [Option.map, Option.toList, List.mem_singleton] at hname
      rw [hname]
      refine ⟨fun h => ?_, fun h => ?_⟩
      · rw [show (("self").data : Str) = 's' :: ("elf").data from rfl] at h
        exact absurd h (cons_ne_of_head (by decide))
      · rw [show (("cls").data : Str) = 'c' :: ("ls").data from rfl] at h
        exact absurd h (cons_ne_of_head (by decide))
  · cases hk : fa.kwarg with
    | none => rw [hk] at hname; simp [Option.map, Option.toList] at hname
    | some k =>
      rw [hk] at hname
      simp only [Option.map, Option.toList, List.mem_singleton] at hname
      rw [hname]
      refine ⟨fun h => ?_, fun h => ?_⟩
      · rw [show (("self").data : Str) = 's' :: ("elf").data from rfl] at h
        exact absurd h (cons_ne_of_head (by decide))
      · rw [show (("cls").data : Str) = 'c' :: ("ls").data from rfl] at h
        exact absurd h (cons_ne_of_head (by decide))

theorem claim_c10_witness :
    (⟨("x").data, none, none⟩ : ParamRec) ∈
      extractParameters ⟨[⟨("cls").data, none⟩, ⟨("x").data, none⟩, ⟨("self").data, none⟩], [], none, none⟩ ∧
    (⟨("x").data, none, none⟩ : ParamRec).name ≠ ("self").data := by
  have hm : (⟨("x").data, none, none⟩ : ParamRec) ∈
      extractParameters ⟨[⟨("cls").data, none⟩, ⟨("x").data, none⟩, ⟨("self").data, none⟩], [], none, none⟩ := by
    decide
  exact ⟨hm, ((claim_c10_self_cls_omitted _).2 _ hm).1⟩

/-- Claim C7: a construct declared with parameters `p1, p2, *args, **kwargs`
extracts exactly `[p1, p2, *args, **kwargs]` in that order, the positional
collector prefixed with one star and the keyword collector with two; a
method's first `self`/`cls` binding parameter never appears. -/
theorem claim_c7_parameter_ordering
    (n1 n2 va kw s0 : Str) (o1 o2 ov ok os : Option PExpr) (ds : List PExpr)
    (h1 : n1 ≠ ("self").data) (h1c : n1 ≠ ("cls").data)
    (h2 : n2 ≠ ("self").data) (h2c : n2 ≠ ("cls").data)
    (hs : s0 = ("self").data ∨ s0 = ("cls").data) :
    ((extractParameters
        ⟨[⟨n1, o1⟩, ⟨n2, o2⟩], ds, some ⟨va, ov⟩, some ⟨kw, ok⟩⟩).map ParamRec.name =
      [n1, n2, '*' :: va, '*' :: '*' :: kw]) ∧
    ((extractParameters
        ⟨⟨s0, os⟩ :: [⟨n1, o1⟩, ⟨n2, o2⟩], ds, some ⟨va, ov⟩, some ⟨kw, ok⟩⟩).map ParamRec.name =
      [n1, n2, '*' :: va, '*' :: '*' :: kw]) := by
  have hb1 : (n1 == ("self").data || n1 == ("cls").data) = false := by simp [h1, h1c]
  have hb2 : (n2 == ("self").data || n2 == ("cls").data) = false := by simp [h2, h2c]
  have hbs : (s0 == ("self").data || s0 == ("cls").data) = true := by
    rcases hs with h | h <;> simp [h]
  constructor
  · rw [extractParameters_names]
    simp [List.filter_cons, h1, h1c, h2, h2c]
  · rw [extractParameters_names]
    rcases hs with rfl | rfl <;> simp [List.filter_cons, h1, h1c, h2, h2c]

theorem claim_c7_witness :
    (("p1").data ≠ ("self").data ∨ True) ∧
    (extractParameters
        ⟨[⟨("p1").data, none⟩, ⟨("p2").data, none⟩], [], some ⟨("args").data, none⟩,
          some ⟨("kwargs").data, none⟩⟩).map ParamRec.name =
      [("p1").data, ("p2").data, '*' :: ("args").data, '*' :: '*' :: ("kwargs").data] := by
  refine ⟨Or.inl (by decide), ?_⟩
  exact (claim_c7_parameter_ordering (("p1").data) (("p2").data) (("args").data)
    (("kwargs").data) (("self").data) none none none none none []
    (by decide) (by decide) (by decide) (by decide) (Or.inl rfl)).1

/-! ## Theorems: `extract_properties` -/

theorem word_not_dot {c : Char} (h : pyWord c = true) : ('.' == c) = false := by
  rcases hc : ('.' == c) with _ | _
  · rfl
  · rw [beq_iff_eq] at hc
    rw [← hc] at h
    exact absurd h (by decide)

theorem removeAll_append_pat {pat : Str} (x : Str)
    (hpat : ∃ t, pat = '.' :: t)
    (hbase : removeAllGo pat pat 0 = [])
    (hx : ∀ c ∈ x, pyWord c = true) :
    removeAll pat (x ++ pat) = x := by
  unfold removeAll
  induction x with
  | nil => simpa using hbase
  | cons c t ih =>
    obtain ⟨pt, hpt⟩ := hpat
    have hc : pyWord c = true := hx c (by simp)
    have hpref : pat.isPrefixOf (c :: (t ++ pat)) = false := by
      rw [hpt]
      simp [List.isPrefixOf, word_not_dot hc]
    simp only [List.cons_append, removeAllGo, List.append_eq, hpref, Bool.false_eq_true,
      if_false]
    rw [ih (fun d hd => hx d (by simp [hd]))]

theorem pyEndsWith_append (suf x : Str) : pyEndsWith suf (x ++ suf) = true := by
  unfold pyEndsWith
  rw [List.isSuffixOf, List.reverse_append]
  exact isPrefixOf_self_append _ _

theorem unparse_attr_name (x s : Str) : unparse (.attr (.name x) s) = x ++ '.' :: s := by
  simp [unparse]

theorem getDecoratorName_attr (x s : Str) :
    getDecoratorName (.attr (.name x) s) = x ++ '.' :: s := by
  simp [getDecoratorName, unparse]

theorem getDecoratorName_name (i : Str) : getDecoratorName (.name i) = i := rfl

theorem setter_not_deleter (x : Str) :
    pyEndsWith ['.', 'd', 'e', 'l', 'e', 't', 'e', 'r']
      (x ++ ['.', 's', 'e', 't', 't', 'e', 'r']) = false := by
  unfold pyEndsWith
  rw [List.isSuffixOf, List.reverse_append]
  simp [List.isPrefixOf]

theorem deleter_not_setter (x : Str) :
    pyEndsWith ['.', 's', 'e', 't', 't', 'e', 'r']
      (x ++ ['.', 'd', 'e', 'l', 'e', 't', 'e', 'r']) = false := by
  unfold pyEndsWith
  rw [List.isSuffixOf, List.reverse_append]
  simp [List.isPrefixOf]

theorem dotted_ne_property (x s : Str) :
    ((x ++ '.' :: s) == ['p', 'r', 'o', 'p', 'e', 'r', 't', 'y']) = false := by
  rcases h : ((x ++ '.' :: s) == ['p', 'r', 'o', 'p', 'e', 'r', 't', 'y']) with _ | _
  · rfl
  · rw [beq_iff_eq] at h
    have hmem : '.' ∈ x ++ '.' :: s := by simp
    rw [h] at hmem
    simp at hmem

/-- Claim C6 (counterexample): in a class whose `.setter`-decorated method
precedes the `@property` getter in the class body, the setter flag is lost —
the single extracted PropertyEntity has `hasSetter = false` and
`isReadonly = true`, contrary to the claim's unconditional merge. -/
theorem claim_c6_counterexample :
    extractProperties [propSetter (("x").data) 1, propGetter (("x").data) 2,
        propDeleter (("x").data) 3] =
      [{ name := ("x").data, type := ("property").data, ann := none, default := none,
         line := 2, docstring := none, isReadonly := true, hasGetter := true,
         hasSetter := false, hasDeleter := true }] := by
  decide

/-- Claim C6 (amended): provided the `@property` getter precedes the
`.setter`- and `.deleter`-decorated methods in the class body (as Python's
property protocol requires of executable code), a class with all three
accessors named `x` yields exactly one PropertyEntity `x` with all three
flags true and `isReadonly = false`; a class with only a getter `y` yields
`isReadonly = true`; and in every case `isReadonly = hasGetter ∧ ¬hasSetter`. -/
theorem claim_c6_property_merge :
    (∀ (x : Str) (ln1 ln2 ln3 : Nat) (fa1 fa2 fa3 : PArgs)
        (r1 r2 r3 : Option PExpr) (b1 b2 b3 : List Stmt),
      x ≠ [] → (∀ c ∈ x, pyWord c = true) →
      extractProperties
          [.functionDef x fa1 [.name (("property").data)] ln1 r1 b1,
           .functionDef x fa2 [.attr (.name x) (("setter").data)] ln2 r2 b2,
           .functionDef x fa3 [.attr (.name x) (("deleter").data)] ln3 r3 b3] =
        [{ name := x, type := ("property").data, ann := r1.map getAnnText,
           default := none, line := ln1, docstring := getDocstring b1,
           isReadonly := false, hasGetter := true, hasSetter := true,
           hasDeleter := true }]) ∧
    (∀ (y : Str) (ln : Nat) (fa : PArgs) (r : Option PExpr) (b : List Stmt),
      extractProperties [.functionDef y fa [.name (("property").data)] ln r b] =
        [{ name := y, type := ("property").data, ann := r.map getAnnText,
           default := none, line := ln, docstring := getDocstring b,
           isReadonly := true, hasGetter := true, hasSetter := false,
           hasDeleter := false }]) ∧
    (∀ (body : List Stmt), ∀ p ∈ extractProperties body,
      p.isReadonly = (p.hasGetter && !p.hasSetter)) := by
  refine ⟨?_, ?_, ?_⟩
  · intro x ln1 ln2 ln3 fa1 fa2 fa3 r1 r2 r3 b1 b2 b3 hx hword
    obtain ⟨c0, t0, rfl⟩ : ∃ c0 t0, x = c0 :: t0 := by
      cases x with
      | nil => exact absurd rfl hx
      | cons c0 t0 => exact ⟨c0, t0, rfl⟩
    have hsetter : removeAll ['.', 's', 'e', 't', 't', 'e', 'r']
        ((c0 :: t0) ++ ['.', 's', 'e', 't', 't', 'e', 'r']) = c0 :: t0 :=
      removeAll_append_pat _ ⟨_, rfl⟩ (by decide) hword
    have hdeleter : removeAll ['.', 'd', 'e', 'l', 'e', 't', 'e', 'r']
        ((c0 :: t0) ++ ['.', 'd', 'e', 'l', 'e', 't', 'e', 'r']) = c0 :: t0 :=
      removeAll_append_pat _ ⟨_, rfl⟩ (by decide) hword
    have hprop1 : pyEndsWith ['.', 's', 'e', 't', 't', 'e', 'r']
        ['p', 'r', 'o', 'p', 'e', 'r', 't', 'y'] = false := by decide
    have hprop2 : pyEndsWith ['.', 'd', 'e', 'l', 'e', 't', 'e', 'r']
        ['p', 'r', 'o', 'p', 'e', 'r', 't', 'y'] = false := by decide
    simp only [extractProperties, propFirstPass, List.foldl, List.any_cons, List.any_nil,
      Bool.or_false, getDecoratorName_attr, getDecoratorName_name, dotted_ne_property,
      pyEndsWith_append, setter_not_deleter, deleter_not_setter, hprop1, hprop2,
      beq_self_eq_true, if_true, Bool.false_eq_true, if_false, hsetter, hdeleter]
    simp [odIns, odSetFlag, odMem, odGet, List.filterMap]
  · intro y ln fa r b
    have hprop1 : pyEndsWith ['.', 's', 'e', 't', 't', 'e', 'r']
        ['p', 'r', 'o', 'p', 'e', 'r', 't', 'y'] = false := by decide
    have hprop2 : pyEndsWith ['.', 'd', 'e', 'l', 'e', 't', 'e', 'r']
        ['p', 'r', 'o', 'p', 'e', 'r', 't', 'y'] = false := by decide
    simp only [extractProperties, propFirstPass, List.foldl, List.any_cons, List.any_nil,
      Bool.or_false, getDecoratorName_name, beq_self_eq_true, if_true, hprop1, hprop2,
      Bool.false_eq_true, if_false]
    simp [odIns, List.filterMap]
  · intro body p hp
    unfold extractProperties at hp
    rw [List.mem_append] at hp
    rcases hp with hp | hp
    · rw [List.mem_map] at hp
      obtain ⟨e, _, heq⟩ := hp
      rw [← heq]
    · rw [List.mem_filterMap] at hp
      obtain ⟨st, _, heq⟩ := hp
      match st, heq with
      | .annAssign (.name tid) a v ln, heq =>
        simp only at heq
        split at heq
        · exact absurd heq (by simp)
        · rw [Option.some_inj] at heq
          rw [← heq]
          rfl

theorem claim_c6_witness :
    extractProperties
        [.functionDef (("x").data) ⟨[], [], none, none⟩
          [.name (("property").data)] 1 none [],
         .functionDef (("x").data) ⟨[], [], none, none⟩
          [.attr (.name (("x").data)) (("setter").data)] 2 none [],
         .functionDef (("x").data) ⟨[], [], none, none⟩
          [.attr (.name (("x").data)) (("deleter").data)] 3 none []] =
      [{ name := ("x").data, type := ("property").data, ann := none, default := none,
         line := 1, docstring := none, isReadonly := false, hasGetter := true,
         hasSetter := true, hasDeleter := true }] :=
  claim_c6_property_merge.1 (("x").data) 1 2 3 ⟨[], [], none, none⟩ ⟨[], [], none, none⟩
    ⟨[], [], none, none⟩ none none none [] [] [] (by decide) (by decide)

/-! ## Theorems: `extract_classes` and `extract_types` -/

/-- Claim C3 (code evaluated at the failing input): for the module
`class A:` containing a nested `class B:`, `extract_classes` emits records
for both `A` and `B` — the nested class is not excluded, because the
`parent`-attribute guard of line 686 is vacuously true on every node. -/
theorem claim_c3_nested_class_extracted :
    extractClasses mNested = .ok
      [{ name := ("A").data, baseClasses := [], decorators := [], line := 1,
         docstring := none,
         methods := [], properties := [] },
       { name := ("B").data, baseClasses := [], decorators := [], line := 2,
         docstring := none, methods := [], properties := [] }] := by
  have hwalk : walkBfs mNested =
      [.classDef (("A").data) [] [] 1 [.classDef (("B").data) [] [] 2 [.passStmt]],
       .classDef (("B").data) [] [] 2 [.passStmt], .passStmt] := by
    rw [mNested]
    rw [walkBfs.eq_def]
    simp only [List.nil_append, childStmts]
    rw [walkBfs.eq_def]
    simp only [List.nil_append, childStmts]
    rw [walkBfs.eq_def]
    simp only [List.nil_append, childStmts]
    rw [walkBfs.eq_def]
  rw [extractClasses, hwalk]
  decide

/-- Claim C4 (code evaluated at the failing input): for the module
`UserId = NewType('UserId', str)`, `extract_types` emits nothing at all — the
NewType arm of the chain is dead code shadowed by the earlier plain-Assign
arm, whose `is_type_expression` test rejects the call expression. -/
theorem claim_c4_newtype_never_emitted : extractTypes mNewType = [] := by
  decide

/-! ## Theorems: `parse_file` failure semantics and the batch contract -/

/-- Claim C2: a syntax error yields a record with every entity list empty, no
component, and a `parseError` containing the line number and the message; any
other per-file failure degrades the record identically; and a batch of N
inputs yields exactly N outputs in input order, the i-th output depending
only on the i-th path and its own acquisition result — so a failure in one
file never changes any other file's record. -/
theorem claim_c2_failure_semantics :
    (∀ (p : Str) (ln : Nat) (msg : Str),
      parseFile p (.syntaxErr ln msg) =
        { filePath := p, component := none, actors := [], relationships := [],
          classes := [], functions := [], types := [], imports := [],
          parseError := some ((("Syntax error at line ").data) ++ natStr ln ++
            (": ").data ++ msg) } ∧
      natStr ln <:+: ((("Syntax error at line ").data) ++ natStr ln ++
        (": ").data ++ msg) ∧
      msg <:+: ((("Syntax error at line ").data) ++ natStr ln ++
        (": ").data ++ msg)) ∧
    (∀ p msg : Str,
      parseFile p (.failure msg) =
        { filePath := p, component := none, actors := [], relationships := [],
          classes := [], functions := [], types := [], imports := [],
          parseError := some msg }) ∧
    (∀ (paths : List Str) (acquire : Str → Acquire),
      (runBatch paths acquire).length = paths.length ∧
      ∀ i : Nat, (runBatch paths acquire)[i]? =
        (paths[i]?).map (fun p => parseFile p (acquire p))) := by
  refine ⟨?_, ?_, ?_⟩
  · intro p ln msg
    refine ⟨rfl, ⟨("Syntax error at line ").data, (": ").data ++ msg, by simp⟩,
      ⟨(("Syntax error at line ").data) ++ natStr ln ++ (": ").data, [], by simp⟩⟩
  · intro p msg
    rfl
  · intro paths acquire
    refine ⟨List.length_map _ _, ?_⟩
    intro i
    exact List.getElem?_map _ _ _

/-! ## Theorems: `_parse_sphinx` and the `:param`/`:type` order invariance -/

theorem word_not_space {c : Char} (h : pyWord c = true) : pySpace c = false := by
  rcases hs : pySpace c with _ | _
  · rfl
  · simp only [pySpace, Bool.or_eq_true, beq_iff_eq] at hs
    rcases hs with ((((rfl | rfl) | rfl) | rfl) | rfl) | rfl <;>
      exact absurd h (by decide)

theorem stripChars_eq_self {l : Str} (h1 : headNotSpace l = true)
    (h2 : lastNotSpace l = true) : stripChars l = l := by
  unfold stripChars
  have hfront : l.dropWhile pySpace = l := by
    cases l with
    | nil => rfl
    | cons c tl =>
      have hc : pySpace c = false := by
        unfold headNotSpace at h1
        simp only [List.head?] at h1
        simp only [Bool.not_eq_true'] at h1
        exact h1
      exact List.dropWhile_cons_of_neg (by rw [hc]; exact Bool.false_ne_true)
  rw [hfront]
  have hback : l.reverse.dropWhile pySpace = l.reverse := by
    cases hrev : l.reverse with
    | nil => rfl
    | cons c tl =>
      have hlast : l.getLast? = some c := by
        rw [← List.head?_reverse, hrev]
        rfl
      have hc : pySpace c = false := by
        unfold lastNotSpace at h2
        rw [hlast] at h2
        simp only [Bool.not_eq_true'] at h2
        exact h2
      exact List.dropWhile_cons_of_neg (by rw [hc]; exact Bool.false_ne_true)
  rw [hback, List.reverse_reverse]

theorem namedTail_spec (x d : Str) (hx : x ≠ []) (hxw : ∀ c ∈ x, pyWord c = true)
    (hd0 : d ≠ []) (hdh : headNotSpace d = true) :
    namedTail (' ' :: (x ++ ':' :: ' ' :: d)) = some (x, d) := by
  obtain ⟨c0, t0, rfl⟩ : ∃ c0 t0, x = c0 :: t0 := by
    cases x with
    | nil => exact absurd rfl hx
    | cons c0 t0 => exact ⟨c0, t0, rfl⟩
  obtain ⟨e0, d0, rfl⟩ : ∃ e0 d0, d = e0 :: d0 := by
    cases d with
    | nil => exact absurd rfl hd0
    | cons e0 d0 => exact ⟨e0, d0, rfl⟩
  have hc0 : pySpace c0 = false := word_not_space (hxw c0 (by simp))
  have he0 : pySpace e0 = false := by
    unfold headNotSpace at hdh
    simp only [List.head?, Bool.not_eq_true'] at hdh
    exact hdh
  have hwne : ¬ ((' ' :: (c0 :: t0 ++ ':' :: ' ' :: (e0 :: d0))).takeWhile
      pySpace).isEmpty = true := by
    rw [List.takeWhile_cons_of_pos (by decide)]
    simp
  have hdrop1 : (' ' :: (c0 :: t0 ++ ':' :: ' ' :: (e0 :: d0))).dropWhile pySpace =
      c0 :: t0 ++ ':' :: ' ' :: (e0 :: d0) := by
    rw [List.dropWhile_cons_of_pos (by decide)]
    exact List.dropWhile_cons_of_neg (by rw [hc0]; exact Bool.false_ne_true)
  have htake : (c0 :: t0 ++ ':' :: ' ' :: (e0 :: d0)).takeWhile pyWord = c0 :: t0 := by
    rw [show (c0 :: t0 ++ ':' :: ' ' :: (e0 :: d0) : Str) =
      (c0 :: t0) ++ ':' :: ' ' :: (e0 :: d0) from rfl]
    rw [takeWhile_sat_append _ _ hxw]
    rw [List.takeWhile_cons_of_neg (by decide)]
    simp
  have hdrop2 : (c0 :: t0 ++ ':' :: ' ' :: (e0 :: d0)).drop (c0 :: t0).length =
      ':' :: ' ' :: (e0 :: d0) := by
    rw [show (c0 :: t0 ++ ':' :: ' ' :: (e0 :: d0) : Str) =
      (c0 :: t0) ++ ':' :: ' ' :: (e0 :: d0) from rfl]
    exact List.drop_left _ _
  simp only [namedTail]
  rw [hdrop1, htake, hdrop2]
  rw [if_neg (by
    intro hcon
    rw [Bool.or_eq_true] at hcon
    rcases hcon with hcon | hcon
    · exact hwne hcon
    · simp at hcon)]
  show Option.map (fun dd => ((c0 :: t0 : Str), dd)) (descTail (' ' :: (e0 :: d0))) =
    some (c0 :: t0, e0 :: d0)
  simp only [descTail]
  rw [if_neg (by simp)]
  rw [List.dropWhile_cons_of_pos (by decide)]
  rw [List.dropWhile_cons_of_neg (by rw [he0]; exact Bool.false_ne_true)]
  rw [if_neg (by simp)]
  rfl

theorem matchParam_line (x d : Str) (hx : x ≠ []) (hxw : ∀ c ∈ x, pyWord c = true)
    (hd0 : d ≠ []) (hdh : headNotSpace d = true) :
    matchParam ((":param ").data ++ x ++ ':' :: ' ' :: d) = some (x, d) := by
  have e : (":param ").data ++ x ++ ':' :: ' ' :: d =
      ':' :: ('p' :: ('a' :: ('r' :: ('a' :: ('m' :: (' ' :: (x ++ ':' :: ' ' :: d))))))) := by
    rw [show ((":param ").data : Str) =
      ':' :: ('p' :: ('a' :: ('r' :: ('a' :: ('m' :: (' ' :: [])))))) from rfl]
    simp
  rw [e]
  unfold matchParam
  rw [if_pos (by
    rw [show ((":param").data : Str) =
      ':' :: ('p' :: ('a' :: ('r' :: ('a' :: ('m' :: []))))) from rfl]
    simp [List.isPrefixOf])]
  exact namedTail_spec x d hx hxw hd0 hdh

theorem matchTypeF_line (x t : Str) (hx : x ≠ []) (hxw : ∀ c ∈ x, pyWord c = true)
    (ht0 : t ≠ []) (hth : headNotSpace t = true) :
    matchTypeF ((":type ").data ++ x ++ ':' :: ' ' :: t) = some (x, t) := by
  have e : (":type ").data ++ x ++ ':' :: ' ' :: t =
      ':' :: ('t' :: ('y' :: ('p' :: ('e' :: (' ' :: (x ++ ':' :: ' ' :: t)))))) := by
    rw [show ((":type ").data : Str) =
      ':' :: ('t' :: ('y' :: ('p' :: ('e' :: (' ' :: []))))) from rfl]
    simp
  rw [e]
  unfold matchTypeF
  rw [if_pos (by
    rw [show ((":type").data : Str) = ':' :: ('t' :: ('y' :: ('p' :: ('e' :: [])))) from rfl]
    simp [List.isPrefixOf])]
  exact namedTail_spec x t hx hxw ht0 hth

theorem matchers_param_line (x d : Str) :
    matchTypeF ((":param ").data ++ x ++ ':' :: ' ' :: d) = none ∧
    matchReturnD ((":param ").data ++ x ++ ':' :: ' ' :: d) = none ∧
    matchRtype ((":param ").data ++ x ++ ':' :: ' ' :: d) = none ∧
    matchRaises ((":param ").data ++ x ++ ':' :: ' ' :: d) = none := by
  have e : (":param ").data ++ x ++ ':' :: ' ' :: d =
      ':' :: ('p' :: ('a' :: ('r' :: ('a' :: ('m' :: (' ' :: (x ++ ':' :: ' ' :: d))))))) := by
    rw [show ((":param ").data : Str) =
      ':' :: ('p' :: ('a' :: ('r' :: ('a' :: ('m' :: (' ' :: [])))))) from rfl]
    simp
  rw [e]
  refine ⟨?_, ?_, ?_, ?_⟩ <;>
    simp [matchTypeF, matchReturnD, matchRtype, matchRaises, List.isPrefixOf]

theorem matchers_type_line (x t : Str) :
    matchParam ((":type ").data ++ x ++ ':' :: ' ' :: t) = none ∧
    matchReturnD ((":type ").data ++ x ++ ':' :: ' ' :: t) = none ∧
    matchRtype ((":type ").data ++ x ++ ':' :: ' ' :: t) = none ∧
    matchRaises ((":type ").data ++ x ++ ':' :: ' ' :: t) = none := by
  have e : (":type ").data ++ x ++ ':' :: ' ' :: t =
      ':' :: ('t' :: ('y' :: ('p' :: ('e' :: (' ' :: (x ++ ':' :: ' ' :: t)))))) := by
    rw [show ((":type ").data : Str) =
      ':' :: ('t' :: ('y' :: ('p' :: ('e' :: (' ' :: []))))) from rfl]
    simp
  rw [e]
  refine ⟨?_, ?_, ?_, ?_⟩ <;>
    simp [matchParam, matchReturnD, matchRtype, matchRaises, List.isPrefixOf]

theorem odGet_odIns_self {α : Type} (d : List (Str × α)) (k : Str) (v : α) :
    odGet (odIns d k v) k = some v := by
  induction d with
  | nil => simp [odIns, odGet]
  | cons p tl ih =>
    by_cases hk : p.1 = k
    · simp [odIns, hk, odGet]
    · have hb : (p.1 == k) = false := by simp [hk]
      simp only [odIns]
      rw [if_neg (by exact hk)]
      simp only [odGet, List.find?] at ih ⊢
      rw [hb]
      exact ih

theorem pline_head (x d : Str) :
    ((":param ").data ++ x ++ ':' :: ' ' :: d).head? = some ':' := by
  rw [show (((":param ").data : Str) ++ x ++ ':' :: ' ' :: d) =
    ':' :: (('p' :: ('a' :: ('r' :: ('a' :: ('m' :: (' ' :: [])))))) ++ x ++
      ':' :: ' ' :: d) from by simp]
  rfl

theorem tline_head (x t : Str) :
    ((":type ").data ++ x ++ ':' :: ' ' :: t).head? = some ':' := by
  rw [show (((":type ").data : Str) ++ x ++ ':' :: ' ' :: t) =
    ':' :: (('t' :: ('y' :: ('p' :: ('e' :: (' ' :: []))))) ++ x ++
      ':' :: ' ' :: t) from by simp]
  rfl

theorem fieldLine_lastNotSpace (lead : Str) (x d : Str) (hd0 : d ≠ [])
    (hdl : lastNotSpace d = true) :
    lastNotSpace (lead ++ x ++ ':' :: ' ' :: d) = true := by
  unfold lastNotSpace
  rw [show ((lead ++ x ++ ':' :: ' ' :: d : Str)) =
    (lead ++ x ++ [':', ' ']) ++ d from by simp]
  rw [List.getLast?_append_of_ne_nil _ hd0]
  unfold lastNotSpace at hdl
  exact hdl

theorem pline_strip (x d : Str) (hd0 : d ≠ []) (hdl : lastNotSpace d = true) :
    stripChars ((":param ").data ++ x ++ ':' :: ' ' :: d) =
      (":param ").data ++ x ++ ':' :: ' ' :: d := by
  apply stripChars_eq_self
  · unfold headNotSpace
    rw [pline_head]
    rfl
  · exact fieldLine_lastNotSpace _ x d hd0 hdl

theorem tline_strip (x t : Str) (ht0 : t ≠ []) (htl : lastNotSpace t = true) :
    stripChars ((":type ").data ++ x ++ ':' :: ' ' :: t) =
      (":type ").data ++ x ++ ':' :: ' ' :: t := by
  apply stripChars_eq_self
  · unfold headNotSpace
    rw [tline_head]
    rfl
  · exact fieldLine_lastNotSpace _ x t ht0 htl

theorem sphinxStep_param_line (st : SphinxSt) (x d : Str)
    (hx : x ≠ []) (hxw : ∀ c ∈ x, pyWord c = true)
    (hd0 : d ≠ []) (hdh : headNotSpace d = true) (hdl : lastNotSpace d = true) :
    sphinxStep st ((":param ").data ++ x ++ ':' :: ' ' :: d) =
      { st with args := st.args ++ [⟨x, odGet st.paramTypes x, d⟩] } := by
  simp only [sphinxStep, pline_strip x d hd0 hdl,
    matchParam_line x d hx hxw hd0 hdh]

theorem sphinxStep_type_line (st : SphinxSt) (x t : Str)
    (hx : x ≠ []) (hxw : ∀ c ∈ x, pyWord c = true)
    (ht0 : t ≠ []) (hth : headNotSpace t = true) (htl : lastNotSpace t = true) :
    sphinxStep st ((":type ").data ++ x ++ ':' :: ' ' :: t) =
      { st with
        paramTypes := odIns st.paramTypes x t,
        args := st.args.map (fun a =>
          if a.name = x then { a with type := some t } else a) } := by
  simp only [sphinxStep, tline_strip x t ht0 htl, (matchers_type_line x t).1,
    matchTypeF_line x t hx hxw ht0 hth]

theorem sphinxStep_comm (st : SphinxSt) (x d t : Str)
    (hx : x ≠ []) (hxw : ∀ c ∈ x, pyWord c = true)
    (hd0 : d ≠ []) (hdh : headNotSpace d = true) (hdl : lastNotSpace d = true)
    (ht0 : t ≠ []) (hth : headNotSpace t = true) (htl : lastNotSpace t = true) :
    sphinxStep (sphinxStep st ((":param ").data ++ x ++ ':' :: ' ' :: d))
        ((":type ").data ++ x ++ ':' :: ' ' :: t) =
      sphinxStep (sphinxStep st ((":type ").data ++ x ++ ':' :: ' ' :: t))
        ((":param ").data ++ x ++ ':' :: ' ' :: d) := by
  rw [sphinxStep_param_line st x d hx hxw hd0 hdh hdl]
  rw [sphinxStep_type_line _ x t hx hxw ht0 hth htl]
  rw [sphinxStep_type_line st x t hx hxw ht0 hth htl]
  rw [sphinxStep_param_line _ x d hx hxw hd0 hdh hdl]
  simp [odGet_odIns_self]

theorem sphinxHead_pair (a b : Str)
    (haN : stripChars a ≠ []) (haH : (stripChars a).head? = some ':')
    (hbN : stripChars b ≠ []) (hbH : (stripChars b).head? = some ':') :
    ∀ (L : List Str) (inSum : Bool) (post : List Str),
    ∃ su de mid,
      sphinxHead (L ++ a :: b :: post) inSum = (su, de, mid ++ a :: b :: post) ∧
      sphinxHead (L ++ b :: a :: post) inSum = (su, de, mid ++ b :: a :: post) := by
  intro L
  induction L with
  | nil =>
    intro inSum post
    refine ⟨[], [], [], ?_, ?_⟩
    · simp only [List.nil_append, sphinxHead]
      rw [if_neg (by simp [haN]), if_pos (by rw [haH]; rfl)]
    · simp only [List.nil_append, sphinxHead]
      rw [if_neg (by simp [hbN]), if_pos (by rw [hbH]; rfl)]
  | cons l L ih =>
    intro inSum post
    by_cases h0 : (stripChars l).isEmpty = true
    · obtain ⟨su, de, mid, h1, h2⟩ := ih false post
      refine ⟨su, de, mid, ?_, ?_⟩ <;>
        simp [sphinxHead, h0, h1, h2]
    · by_cases h1 : ((stripChars l).head? == some ':') = true
      · refine ⟨[], [], l :: L, ?_, ?_⟩ <;>
          simp [sphinxHead, h0, h1]
      · obtain ⟨su, de, mid, ha, hb⟩ := ih inSum post
        cases inSum with
        | true =>
          refine ⟨stripChars l :: su, de, mid, ?_, ?_⟩ <;>
            simp [sphinxHead, h0, h1, ha, hb]
        | false =>
          refine ⟨su, stripChars l :: de, mid, ?_, ?_⟩ <;>
            simp [sphinxHead, h0, h1, ha, hb]

/-- Claim C8: in `_parse_sphinx`, a `:param x:` field and a `:type x:` field
for the same name produce an ArgDoc carrying both the description and the
type, and the parse result is invariant under swapping the order of the two
adjacent field lines, whatever lines surround them. -/
theorem claim_c8_sphinx_param_type_order (L1 L2 : List Str) (x d t : Str)
    (hx : x ≠ []) (hxw : ∀ c ∈ x, pyWord c = true)
    (hd0 : d ≠ []) (hdh : headNotSpace d = true) (hdl : lastNotSpace d = true)
    (ht0 : t ≠ []) (hth : headNotSpace t = true) (htl : lastNotSpace t = true) :
    parseSphinxLines (L1 ++ ((":param ").data ++ x ++ ':' :: ' ' :: d) ::
        ((":type ").data ++ x ++ ':' :: ' ' :: t) :: L2) =
      parseSphinxLines (L1 ++ ((":type ").data ++ x ++ ':' :: ' ' :: t) ::
        ((":param ").data ++ x ++ ':' :: ' ' :: d) :: L2) ∧
    (parseSphinxLines [(":param ").data ++ x ++ ':' :: ' ' :: d,
        (":type ").data ++ x ++ ':' :: ' ' :: t]).args =
      [⟨x, some t, d⟩] := by
  have hsp := pline_strip x d hd0 hdl
  have hst := tline_strip x t ht0 htl
  have hpN : stripChars ((":param ").data ++ x ++ ':' :: ' ' :: d) ≠ [] := by
    rw [hsp]
    intro hcon
    have hcon2 := congrArg List.head? hcon
    rw [pline_head] at hcon2
    simp at hcon2
  have hpH : (stripChars ((":param ").data ++ x ++ ':' :: ' ' :: d)).head? =
      some ':' := by
    rw [hsp]
    exact pline_head x d
  have htN : stripChars ((":type ").data ++ x ++ ':' :: ' ' :: t) ≠ [] := by
    rw [hst]
    intro hcon
    have hcon2 := congrArg List.head? hcon
    rw [tline_head] at hcon2
    simp at hcon2
  have htH : (stripChars ((":type ").data ++ x ++ ':' :: ' ' :: t)).head? =
      some ':' := by
    rw [hst]
    exact tline_head x t
  obtain ⟨pl, hpl⟩ : ∃ pl : Str, (":param ").data ++ x ++ ':' :: ' ' :: d = pl :=
    ⟨_, rfl⟩
  obtain ⟨tl, htlq⟩ : ∃ tl : Str, (":type ").data ++ x ++ ':' :: ' ' :: t = tl :=
    ⟨_, rfl⟩
  rw [hpl] at hpN hpH
  rw [htlq] at htN htH
  have hstepP : ∀ st : SphinxSt, sphinxStep st pl =
      { st with args := st.args ++ [⟨x, odGet st.paramTypes x, d⟩] } := by
    intro st
    rw [← hpl]
    exact sphinxStep_param_line st x d hx hxw hd0 hdh hdl
  have hstepT : ∀ st : SphinxSt, sphinxStep st tl =
      { st with
        paramTypes := odIns st.paramTypes x t,
        args := st.args.map (fun a =>
          if a.name = x then { a with type := some t } else a) } := by
    intro st
    rw [← htlq]
    exact sphinxStep_type_line st x t hx hxw ht0 hth htl
  have hcomm : ∀ st : SphinxSt,
      sphinxStep (sphinxStep st pl) tl = sphinxStep (sphinxStep st tl) pl := by
    intro st
    rw [← hpl, ← htlq]
    exact sphinxStep_comm st x d t hx hxw hd0 hdh hdl ht0 hth htl
  rw [hpl, htlq]
  constructor
  · obtain ⟨su, de, mid, h1, h2⟩ := sphinxHead_pair pl tl hpN hpH htN htH L1 true L2
    simp only [parseSphinxLines, h1, h2]
    rw [List.foldl_append, List.foldl_cons, List.foldl_cons]
    rw [List.foldl_append, List.foldl_cons, List.foldl_cons]
    rw [hcomm]
  · have hh : sphinxHead [pl, tl] true = ([], [], [pl, tl]) := by
      simp only [sphinxHead]
      rw [if_neg (by simp [hpN]), if_pos (by rw [hpH]; rfl)]
    simp only [parseSphinxLines, hh]
    rw [List.foldl_cons, List.foldl_cons, List.foldl_nil]
    rw [hstepP, hstepT]
    simp [odGet]

theorem claim_c8_witness :
    parseSphinxLines [("Summary.").data,
        (":param ").data ++ ("x").data ++ ':' :: ' ' :: ("the value").data,
        (":type ").data ++ ("x").data ++ ':' :: ' ' :: ("int").data] =
      parseSphinxLines [("Summary.").data,
        (":type ").data ++ ("x").data ++ ':' :: ' ' :: ("int").data,
        (":param ").data ++ ("x").data ++ ':' :: ' ' :: ("the value").data] :=
  (claim_c8_sphinx_param_type_order [("Summary.").data] [] (("x").data)
    (("the value").data) (("int").data) (by decide) (by decide) (by decide)
    (by decide) (by decide) (by decide) (by decide) (by decide)).1

end Archlette
